import Mathlib

/-!
Verification of the claude-memory-mcp knowledge store (src/src/database.ts,
src/src/tools/{memory,skills,failures}.ts and the context tool module)
against its natural-language specification.

The TypeScript source drives every definition below: SQLite tables become
lists of row structures, each exported tool function becomes a Lean function
on an explicit database state, and the SQL statements the source prepares
are translated statement by statement (upsert-on-conflict, left joins with
aggregation, the lazy TTL purge, and the TEXT comparison SQLite performs
between stored expiry strings and CURRENT_TIMESTAMP).

Timestamps are modelled the way the running system produces them: the
JavaScript side stores ISO-8601 strings (Date#toISOString) while SQLite's
CURRENT_TIMESTAMP renders the same instant in a different textual layout;
both renderings are implemented concretely from an epoch-millisecond clock
so that string comparisons in the embedded SQL behave exactly as SQLite's
binary TEXT collation does.
-/

namespace CMem

/-! ## Character and digit utilities -/

/-- The ASCII digit character for a value below ten. -/
def digitChar (d : Nat) : Char := Char.ofNat (48 + d)

/-- Numeric value of an ASCII digit character. -/
def digitVal (c : Char) : Nat := c.toNat - 48

/-- Decimal digit list of a natural number, most significant first.
Fuel-based so the definition is structural and kernel-reducible. -/
def natCharsF : Nat → Nat → List Char
  | 0, _ => []
  | fuel + 1, n =>
    if n < 10 then [digitChar n]
    else natCharsF fuel (n / 10) ++ [digitChar (n % 10)]

/-- Decimal rendering of a natural number. -/
def natChars (n : Nat) : List Char := natCharsF (n + 1) n

/-- Decimal rendering of an integer, matching JavaScript number-to-string
output on integral values. -/
def intChars : Int → List Char
  | Int.ofNat n => natChars n
  | Int.negSucc m => '-' :: natChars (m + 1)

/-- Left-pad a digit list with zeros to the given width. -/
def padTo (w : Nat) (ds : List Char) : List Char :=
  List.replicate (w - ds.length) '0' ++ ds

/-- Two-digit zero-padded rendering. -/
def pad2 (n : Nat) : List Char := padTo 2 (natChars n)

/-- Three-digit zero-padded rendering. -/
def pad3 (n : Nat) : List Char := padTo 3 (natChars n)

/-- Four-digit zero-padded rendering. -/
def pad4 (n : Nat) : List Char := padTo 4 (natChars n)

/-- Lowercase hexadecimal digit for a value below sixteen, as emitted by
JSON.stringify when escaping control characters. -/
def hexDigit (d : Nat) : Char :=
  if d < 10 then Char.ofNat (48 + d) else Char.ofNat (87 + d)

/-- Hexadecimal value of a character, if it is a hex digit. -/
def hexVal? (c : Char) : Option Nat :=
  if 48 ≤ c.toNat ∧ c.toNat ≤ 57 then some (c.toNat - 48)
  else if 97 ≤ c.toNat ∧ c.toNat ≤ 102 then some (c.toNat - 87)
  else if 65 ≤ c.toNat ∧ c.toNat ≤ 70 then some (c.toNat - 55)
  else none

/-- ASCII lowercase folding, as SQLite LIKE applies to ASCII letters. -/
def asciiLower (c : Char) : Char :=
  if 65 ≤ c.toNat ∧ c.toNat ≤ 90 then Char.ofNat (c.toNat + 32) else c

/-- Whether the first list occurs as a prefix of the second. -/
def listPrefixB : List Char → List Char → Bool
  | [], _ => true
  | _ :: _, [] => false
  | a :: as, b :: bs => a == b && listPrefixB as bs

/-- Whether the first list occurs as a contiguous sublist of the second. -/
def listSubB (needle : List Char) : List Char → Bool
  | [] => listPrefixB needle []
  | c :: cs => listPrefixB needle (c :: cs) || listSubB needle cs

/-- Binary (memcmp-style) strict ordering on character lists; this is how
SQLite compares two TEXT values under the default BINARY collation. -/
def listLtB : List Char → List Char → Bool
  | [], [] => false
  | [], _ :: _ => true
  | _ :: _, [] => false
  | a :: as, b :: bs =>
    if a.toNat < b.toNat then true
    else if b.toNat < a.toNat then false
    else listLtB as bs

/-! ## Clock model

The process clock is an epoch-millisecond count. `utcOf` converts it to a
civil UTC date-time (proleptic Gregorian, Howard Hinnant's algorithm, the
same arithmetic the JavaScript Date and SQLite both implement), and the two
renderers below produce the exact textual forms the two sides of the system
write: `isoChars` is JavaScript Date#toISOString, `sqliteChars` is SQLite's
CURRENT_TIMESTAMP. -/

/-- A civil UTC date-time, split into calendar fields. -/
structure CivilTime where
  year : Nat
  month : Nat
  day : Nat
  hour : Nat
  minute : Nat
  second : Nat
  ms : Nat
deriving DecidableEq

/-- Convert epoch milliseconds to civil UTC time. Accurate for all instants
at or after the epoch, which covers every reachable run of this system. -/
def utcOf (msEpoch : Int) : CivilTime :=
  let msN := msEpoch.toNat
  let totalSec := msN / 1000
  let days := totalSec / 86400
  let secOfDay := totalSec % 86400
  let z := days + 719468
  let era := z / 146097
  let doe := z % 146097
  let yoe := (doe - doe / 1460 + doe / 36524 - doe / 146096) / 365
  let y := yoe + era * 400
  let doy := doe - (365 * yoe + yoe / 4 - yoe / 100)
  let mp := (5 * doy + 2) / 153
  let d := doy - (153 * mp + 2) / 5 + 1
  let m := if mp < 10 then mp + 3 else mp - 9
  let year := if m ≤ 2 then y + 1 else y
  { year := year, month := m, day := d,
    hour := secOfDay / 3600, minute := secOfDay % 3600 / 60,
    second := secOfDay % 60, ms := msN % 1000 }

/-- JavaScript Date#toISOString rendering: YYYY-MM-DDTHH:MM:SS.mmmZ. -/
def isoChars (t : CivilTime) : List Char :=
  pad4 t.year ++ '-' :: pad2 t.month ++ '-' :: pad2 t.day ++
    'T' :: pad2 t.hour ++ ':' :: pad2 t.minute ++ ':' :: pad2 t.second ++
    '.' :: pad3 t.ms ++ ['Z']

/-- SQLite CURRENT_TIMESTAMP rendering: YYYY-MM-DD HH:MM:SS. -/
def sqliteChars (t : CivilTime) : List Char :=
  pad4 t.year ++ '-' :: pad2 t.month ++ '-' :: pad2 t.day ++
    ' ' :: pad2 t.hour ++ ':' :: pad2 t.minute ++ ':' :: pad2 t.second

/-- The TEXT value SQLite's CURRENT_TIMESTAMP yields at a given instant. -/
def sqliteNow (nowMs : Nat) : List Char := sqliteChars (utcOf nowMs)

/-! ## JSON values and the platform serializer

The context store persists its `value` argument with JSON.stringify and
revives it with JSON.parse; the memory store serializes its `tags` array the
same way. Both functions belong to the JavaScript runtime, so they are
modelled here concretely from their specified behavior (ECMA-262
JSON.stringify / JSON.parse): `encode` produces exactly the compact text
JSON.stringify emits (no whitespace, shorthand escapes for the two quote
characters and the five named control characters, u-escapes for the
remaining control characters), and `parseValueF` reads that grammar back.
Numbers are modelled as integers — the integral case is the one every value
in this repository exercises — and strings as lists of Unicode scalars. -/

/-- A structured JSON value. -/
inductive Json where
  | null
  | bool (b : Bool)
  | num (n : Int)
  | str (s : List Char)
  | arr (elems : List Json)
  | obj (fields : List (List Char × Json))

/-- JSON.stringify escaping of one character inside a string literal. -/
def escapeChar (c : Char) : List Char :=
  if c = '"' then ['\\', '"']
  else if c = '\\' then ['\\', '\\']
  else if c.toNat = 8 then ['\\', 'b']
  else if c.toNat = 9 then ['\\', 't']
  else if c.toNat = 10 then ['\\', 'n']
  else if c.toNat = 12 then ['\\', 'f']
  else if c.toNat = 13 then ['\\', 'r']
  else if c.toNat < 32 then
    ['\\', 'u', '0', '0', hexDigit (c.toNat / 16), hexDigit (c.toNat % 16)]
  else [c]

/-- JSON.stringify escaping of a whole string body. -/
def escape (s : List Char) : List Char := (s.map escapeChar).flatten

mutual

/-- Structural size of a JSON value, used as recursion fuel. -/
def jsize : Json → Nat
  | Json.null => 1
  | Json.bool _ => 1
  | Json.num _ => 1
  | Json.str _ => 1
  | Json.arr xs => 1 + jsizeElems xs
  | Json.obj kvs => 1 + jsizeFields kvs
termination_by structural v => v

/-- Structural size of an array body. -/
def jsizeElems : List Json → Nat
  | [] => 1
  | x :: xs => 1 + jsize x + jsizeElems xs
termination_by structural l => l

/-- Structural size of an object body. -/
def jsizeFields : List (List Char × Json) → Nat
  | [] => 1
  | kv :: kvs => 1 + jsize kv.2 + jsizeFields kvs
termination_by structural l => l

end

mutual

/-- Fueled JSON.stringify rendering of a value. -/
def encodeF : Nat → Json → List Char
  | 0, _ => []
  | _ + 1, Json.null => ['n', 'u', 'l', 'l']
  | _ + 1, Json.bool true => ['t', 'r', 'u', 'e']
  | _ + 1, Json.bool false => ['f', 'a', 'l', 's', 'e']
  | _ + 1, Json.num n => intChars n
  | _ + 1, Json.str s => '"' :: escape s ++ ['"']
  | fuel + 1, Json.arr xs => '[' :: encodeElemsF fuel xs ++ [']']
  | fuel + 1, Json.obj kvs => '{' :: encodeFieldsF fuel kvs ++ ['}']
termination_by structural fuel => fuel

/-- Fueled rendering of comma-separated array elements. -/
def encodeElemsF : Nat → List Json → List Char
  | 0, _ => []
  | _ + 1, [] => []
  | fuel + 1, [x] => encodeF fuel x
  | fuel + 1, x :: y :: rest => encodeF fuel x ++ ',' :: encodeElemsF fuel (y :: rest)
termination_by structural fuel => fuel

/-- Fueled rendering of comma-separated object members. -/
def encodeFieldsF : Nat → List (List Char × Json) → List Char
  | 0, _ => []
  | _ + 1, [] => []
  | fuel + 1, [(k, v)] => '"' :: escape k ++ '"' :: ':' :: encodeF fuel v
  | fuel + 1, (k, v) :: p :: rest =>
    ('"' :: escape k ++ '"' :: ':' :: encodeF fuel v) ++ ',' :: encodeFieldsF fuel (p :: rest)
termination_by structural fuel => fuel

end

/-- JSON.stringify, modelled from ECMA-262. -/
def encode (v : Json) : List Char := encodeF (jsize v) v

/-- The single-character shorthand escapes JSON.parse accepts. -/
def simpleUnescape (e : Char) : Option Char :=
  if e = '"' then some '"'
  else if e = '\\' then some '\\'
  else if e = '/' then some '/'
  else if e = 'b' then some (Char.ofNat 8)
  else if e = 'f' then some (Char.ofNat 12)
  else if e = 'n' then some (Char.ofNat 10)
  else if e = 'r' then some (Char.ofNat 13)
  else if e = 't' then some (Char.ofNat 9)
  else none

/-- Parse the body of a JSON string literal after its opening quote,
returning the unescaped characters and the input after the closing quote. -/
def parseStr : List Char → Option (List Char × List Char)
  | [] => none
  | c :: rest =>
    if c = '"' then some ([], rest)
    else if c = '\\' then
      match rest with
      | [] => none
      | e :: rest2 =>
        if e = 'u' then
          match rest2 with
          | h1 :: h2 :: h3 :: h4 :: rest3 =>
            match hexVal? h1, hexVal? h2, hexVal? h3, hexVal? h4 with
            | some a, some b, some c2, some d =>
              (parseStr rest3).map
                (fun r => (Char.ofNat (a * 4096 + b * 256 + c2 * 16 + d) :: r.1, r.2))
            | _, _, _, _ => none
          | _ => none
        else
          match simpleUnescape e with
          | some c2 => (parseStr rest2).map (fun r => (c2 :: r.1, r.2))
          | none => none
    else (parseStr rest).map (fun r => (c :: r.1, r.2))

/-- Consume a run of decimal digits, extending the accumulator. -/
def parseNatAux : List Char → Nat → Nat × List Char
  | [], acc => (acc, [])
  | c :: rest, acc =>
    if c.isDigit then parseNatAux rest (acc * 10 + digitVal c) else (acc, c :: rest)

mutual

/-- Fueled JSON.parse of one value, returning it with the remaining input. -/
def parseValueF : Nat → List Char → Option (Json × List Char)
  | 0, _ => none
  | _ + 1, [] => none
  | fuel + 1, c :: cs =>
    if c.isDigit then
      let r := parseNatAux (c :: cs) 0
      some (Json.num (r.1 : Int), r.2)
    else if c = '-' then
      match cs with
      | d :: cs2 =>
        if d.isDigit then
          let r := parseNatAux (d :: cs2) 0
          some (Json.num (-(r.1 : Int)), r.2)
        else none
      | [] => none
    else if c = '"' then (parseStr cs).map (fun r => (Json.str r.1, r.2))
    else if c = '[' then
      if cs.head? = some ']' then some (Json.arr [], cs.tail)
      else (parseElemsF fuel cs).map (fun r => (Json.arr r.1, r.2))
    else if c = '{' then
      if cs.head? = some '}' then some (Json.obj [], cs.tail)
      else (parseFieldsF fuel cs).map (fun r => (Json.obj r.1, r.2))
    else
      match c :: cs with
      | 'n' :: 'u' :: 'l' :: 'l' :: rest => some (Json.null, rest)
      | 't' :: 'r' :: 'u' :: 'e' :: rest => some (Json.bool true, rest)
      | 'f' :: 'a' :: 'l' :: 's' :: 'e' :: rest => some (Json.bool false, rest)
      | _ => none
termination_by structural fuel => fuel

/-- Fueled parse of one-or-more comma-separated array elements up to the
closing bracket. -/
def parseElemsF : Nat → List Char → Option (List Json × List Char)
  | 0, _ => none
  | fuel + 1, cs =>
    match parseValueF fuel cs with
    | none => none
    | some (v, r) =>
      match r with
      | ',' :: r2 =>
        (parseElemsF fuel r2).map (fun q => (v :: q.1, q.2))
      | ']' :: r2 => some ([v], r2)
      | _ => none
termination_by structural fuel => fuel

/-- Fueled parse of one-or-more comma-separated object members up to the
closing brace. -/
def parseFieldsF : Nat → List Char → Option (List (List Char × Json) × List Char)
  | 0, _ => none
  | fuel + 1, cs =>
    match cs with
    | '"' :: cs2 =>
      match parseStr cs2 with
      | none => none
      | some (k, r) =>
        match r with
        | ':' :: r2 =>
          match parseValueF fuel r2 with
          | none => none
          | some (v, r3) =>
            match r3 with
            | ',' :: r4 =>
              (parseFieldsF fuel r4).map (fun q => ((k, v) :: q.1, q.2))
            | '}' :: r4 => some ([(k, v)], r4)
            | _ => none
        | _ => none
    | _ => none
termination_by structural fuel => fuel

end

/-- JSON.parse, modelled from ECMA-262 on whitespace-free input: the whole
text must parse as one value. The fuel is an upper bound on the recursion
depth any input of this length can demand, so it never cuts a parse short. -/
def decode (cs : List Char) : Option Json :=
  match parseValueF (2 * cs.length + 2) cs with
  | some (v, []) => some v
  | _ => none

/-! ## Database state

One structure per SQLite table of src/src/database.ts, with TEXT columns as
String (or List Char where the stored text is machine-generated and later
compared textually), nullable columns as Option, and each table as a list of
rows in rowid order. INTEGER PRIMARY KEY assignment is modelled with the
per-table next-id counters. -/

/-- A row of the memory table. -/
structure MemoryRow where
  id : Nat
  key : String
  content : String
  tags : Option (List Char)
  scope : String
  source : Option String
  created_at : List Char
  updated_at : List Char
deriving DecidableEq

/-- A row of the skills table. -/
structure SkillRow where
  id : Nat
  name : String
  version : String
  source : String
  project_path : Option String
  installed_by : Option String
  installed_at : List Char
  last_used_at : Option (List Char)
  use_count : Nat
deriving DecidableEq

/-- A row of the skill_usage table. -/
structure UsageRow where
  id : Nat
  skill_name : String
  project_path : Option String
  started_at : Option (List Char)
  completed_at : Option (List Char)
  success : Option Bool
  outcome : Option String
  tokens_used : Option Nat
  notes : Option String
deriving DecidableEq

/-- A row of the failures table. -/
structure FailureRow where
  id : Nat
  error_pattern : String
  error_message : Option String
  solution : Option String
  skill_name : Option String
  project_path : Option String
  occurrence_count : Nat
  last_seen_at : List Char
  created_at : List Char
deriving DecidableEq

/-- A row of the context table. -/
structure ContextRow where
  id : Nat
  session_id : String
  key : String
  value : List Char
  skill_name : Option String
  expires_at : Option (List Char)
  created_at : List Char
deriving DecidableEq

/-- The whole database file. -/
structure Db where
  memory : List MemoryRow
  skills : List SkillRow
  skill_usage : List UsageRow
  failures : List FailureRow
  context : List ContextRow
  nextMemoryId : Nat
  nextSkillId : Nat
  nextUsageId : Nat
  nextFailureId : Nat
  nextContextId : Nat
deriving DecidableEq

/-- The freshly initialized database. -/
def emptyDb : Db :=
  { memory := [], skills := [], skill_usage := [], failures := [], context := [],
    nextMemoryId := 1, nextSkillId := 1, nextUsageId := 1, nextFailureId := 1,
    nextContextId := 1 }

/-- The error kinds the stack can surface: SQLite constraint violations,
other storage-level failures, and the caller-input validation kind the
specification's taxonomy names. -/
inductive DbError where
  | constraint (msg : String)
  | storage (msg : String)
  | validation (msg : String)
deriving DecidableEq

/-- JavaScript `x || null` on an optional string: empty and absent both
collapse to null. -/
def nonEmpty : Option String → Option String
  | none => none
  | some s => if s = "" then none else some s

/-- JavaScript `x || null` on an optional number: zero and absent both
collapse to null. -/
def orNullNat : Option Nat → Option Nat
  | none => none
  | some n => if n = 0 then none else some n

/-! ## Memory store (src/src/tools/memory.ts) -/

/-- Parameters of memory_write. -/
structure MemoryWriteParams where
  key : String
  content : String
  tags : Option (List String)
  scope : Option String
  source : Option String

/-- Parameters of memory_search. -/
structure MemorySearchParams where
  query : String
  scope : Option String
  limit : Option Nat

/-- The DO UPDATE SET clause of memory_write's upsert: replace content,
tags (as their JSON.stringify rendering), scope and source (with their
JavaScript parameter defaults applied), and stamp updated_at with
CURRENT_TIMESTAMP; every other column keeps the existing row's value. -/
def rewriteMemory (nowMs : Nat) (p : MemoryWriteParams) (r : MemoryRow) :
    MemoryRow :=
  { r with content := p.content,
           tags := p.tags.map (fun ts =>
             encode (Json.arr (ts.map (fun t => Json.str t.data)))),
           scope := p.scope.getD ("global"),
           source := some (p.source.getD ("manual")),
           updated_at := sqliteNow nowMs }

/-- memoryWrite: INSERT .. ON CONFLICT(key) DO UPDATE SET content, tags,
scope, source, updated_at = CURRENT_TIMESTAMP; created_at only ever comes
from the insert branch's column default. -/
def memoryWrite (nowMs : Nat) (db : Db) (p : MemoryWriteParams) :
    Db × (Bool × String) :=
  match db.memory.find? (fun r => r.key == p.key) with
  | some _ =>
    let mem := db.memory.map (fun r =>
      if r.key == p.key then rewriteMemory nowMs p r else r)
    ({ db with memory := mem }, (true, p.key))
  | none =>
    let row : MemoryRow :=
      { id := db.nextMemoryId, key := p.key, content := p.content,
        tags := p.tags.map (fun ts =>
          encode (Json.arr (ts.map (fun t => Json.str t.data)))),
        scope := p.scope.getD ("global"),
        source := some (p.source.getD ("manual")),
        created_at := sqliteNow nowMs, updated_at := sqliteNow nowMs }
    ({ db with memory := db.memory ++ [row], nextMemoryId := db.nextMemoryId + 1 },
     (true, p.key))

/-- Whether one string occurs inside another. -/
def strContains (needle hay : String) : Bool := listSubB needle.data hay.data

/-- Modelled from the SQLite FTS5 engine (an external library): MATCH with
an empty pattern fails with an fts5 syntax error at statement execution,
which better-sqlite3 surfaces as a storage-level SqliteError; a valid
pattern returns the index matches in relevance order. The match relation for
valid patterns is simplified to plain-text containment over the indexed
columns, which is all the claims here depend on. -/
def ftsMatchMemory (q : String) (rows : List MemoryRow) :
    Except DbError (List MemoryRow) :=
  if q = "" then Except.error (DbError.storage ("fts5: syntax error near the empty query"))
  else Except.ok (rows.filter (fun r =>
    strContains q r.key || strContains q r.content ||
      (match r.tags with | some t => listSubB q.data t | none => false)))

/-- memorySearch: SELECT m.* FROM memory JOIN memory_fts ... MATCH ?
(AND m.scope = ? when a scope is given) ORDER BY rank LIMIT ?. The query
string is handed to MATCH with no validation of any kind. -/
def memorySearch (db : Db) (p : MemorySearchParams) :
    Db × Except DbError (List MemoryRow) :=
  match ftsMatchMemory p.query db.memory with
  | Except.error e => (db, Except.error e)
  | Except.ok matched =>
    let filteredRows : List MemoryRow := match p.scope with
      | some sc => matched.filter (fun r => r.scope == sc)
      | none => matched
    (db, Except.ok (filteredRows.take (p.limit.getD 20)))

/-! ## Failure ledger (src/src/tools/failures.ts) -/

/-- Parameters of failure_record. -/
structure FailureRecordParams where
  error_pattern : String
  error_message : Option String
  solution : Option String
  skill_name : Option String
  project_path : Option String

/-- failureRecord: look up by error_pattern; if found, UPDATE occurrence,
last_seen_at and COALESCE the merge fields on that row's id; else INSERT a
fresh row (occurrence_count defaults to 1); finally re-fetch by pattern. -/
def failureRecord (nowMs : Nat) (db : Db) (p : FailureRecordParams) :
    Db × (Bool × Option FailureRow) :=
  match db.failures.find? (fun r => r.error_pattern == p.error_pattern) with
  | some ex =>
    let fs := db.failures.map (fun r =>
      if r.id == ex.id then
        { r with occurrence_count := r.occurrence_count + 1,
                 last_seen_at := sqliteNow nowMs,
                 solution := ((nonEmpty p.solution).orElse (fun _ => r.solution)),
                 error_message := ((nonEmpty p.error_message).orElse (fun _ => r.error_message)) }
      else r)
    let db2 := { db with failures := fs }
    (db2, (true, db2.failures.find? (fun r => r.error_pattern == p.error_pattern)))
  | none =>
    let row : FailureRow :=
      { id := db.nextFailureId, error_pattern := p.error_pattern,
        error_message := nonEmpty p.error_message,
        solution := nonEmpty p.solution,
        skill_name := nonEmpty p.skill_name,
        project_path := nonEmpty p.project_path,
        occurrence_count := 1,
        last_seen_at := sqliteNow nowMs, created_at := sqliteNow nowMs }
    let db2 := { db with failures := db.failures ++ [row],
                         nextFailureId := db.nextFailureId + 1 }
    (db2, (true, db2.failures.find? (fun r => r.error_pattern == p.error_pattern)))

/-! ## Context store (the context tool module, src/unnamed/part_001) -/

/-- Parameters of context_set. -/
structure ContextSetParams where
  session_id : String
  key : String
  value : Json
  skill_name : Option String
  expires_in_minutes : Option Int

/-- contextSet: serialize the value with JSON.stringify, compute the expiry
instant as toISOString of now + minutes when the minutes argument is truthy
(absent and 0 are both falsy in JavaScript, so both store NULL), and upsert
on (session_id, key). -/
def contextSet (nowMs : Nat) (db : Db) (p : ContextSetParams) :
    Db × (Bool × String) :=
  let valueJson := encode p.value
  let expiresAt : Option (List Char) :=
    match p.expires_in_minutes with
    | none => none
    | some m =>
      if m = 0 then none
      else some (isoChars (utcOf ((nowMs : Int) + m * 60000)))
  match db.context.find? (fun r => r.session_id == p.session_id && r.key == p.key) with
  | some _ =>
    let ctx := db.context.map (fun r =>
      if r.session_id == p.session_id && r.key == p.key then
        { r with value := valueJson, skill_name := nonEmpty p.skill_name,
                 expires_at := expiresAt }
      else r)
    ({ db with context := ctx }, (true, p.key))
  | none =>
    let row : ContextRow :=
      { id := db.nextContextId, session_id := p.session_id, key := p.key,
        value := valueJson, skill_name := nonEmpty p.skill_name,
        expires_at := expiresAt, created_at := sqliteNow nowMs }
    ({ db with context := db.context ++ [row],
               nextContextId := db.nextContextId + 1 }, (true, p.key))

/-- The lazy purge both readers run first: DELETE FROM context WHERE
expires_at IS NOT NULL AND expires_at < CURRENT_TIMESTAMP — a SQLite TEXT
comparison between the stored ISO string and the engine's own timestamp
rendering. -/
def purgeExpired (nowMs : Nat) (rows : List ContextRow) : List ContextRow :=
  rows.filter (fun r =>
    match r.expires_at with
    | some e => !(listLtB e (sqliteNow nowMs))
    | none => true)

/-- What contextGet hands back: the revived JSON value, or the raw stored
text when JSON.parse throws. -/
inductive CtxValue where
  | parsed (v : Json)
  | raw (s : List Char)

/-- contextGet: purge globally, then SELECT value WHERE session_id AND key;
try JSON.parse and fall back to the raw text. -/
def contextGet (nowMs : Nat) (db : Db) (session_id key : String) :
    Db × Option CtxValue :=
  let ctx := purgeExpired nowMs db.context
  let db2 := { db with context := ctx }
  match ctx.find? (fun r => r.session_id == session_id && r.key == key) with
  | none => (db2, none)
  | some r =>
    (db2, some (match decode r.value with
      | some j => CtxValue.parsed j
      | none => CtxValue.raw r.value))

/-- Insert into a list already sorted by created_at descending. -/
def insertByCreatedDesc (a : ContextRow) : List ContextRow → List ContextRow
  | [] => [a]
  | b :: rest =>
    if listLtB b.created_at a.created_at then a :: b :: rest
    else b :: insertByCreatedDesc a rest

/-- ORDER BY created_at DESC. -/
def sortByCreatedDesc : List ContextRow → List ContextRow
  | [] => []
  | x :: xs => insertByCreatedDesc x (sortByCreatedDesc xs)

/-- contextList: purge globally, then SELECT * WHERE session_id ORDER BY
created_at DESC. -/
def contextList (nowMs : Nat) (db : Db) (session_id : String) :
    Db × List ContextRow :=
  let ctx := purgeExpired nowMs db.context
  let db2 := { db with context := ctx }
  (db2, sortByCreatedDesc (ctx.filter (fun r => r.session_id == session_id)))

/-! ## Skill registry and usage tracker (src/src/tools/skills.ts) -/

/-- Parameters of skill_register. -/
structure SkillRegisterParams where
  name : String
  version : String
  source : String
  project_path : Option String
  installed_by : Option String

/-- Parameters of skill_usage_start. -/
structure SkillUsageStartParams where
  skill_name : String
  project_path : Option String

/-- Parameters of skill_usage_end. -/
structure SkillUsageEndParams where
  usage_id : Nat
  success : Bool
  outcome : Option String
  tokens_used : Option Nat
  notes : Option String

/-- skillRegister: INSERT .. ON CONFLICT(name) DO UPDATE SET version,
source, project_path — use_count, installed_at, installed_by and
last_used_at survive re-registration. -/
def skillRegister (nowMs : Nat) (db : Db) (p : SkillRegisterParams) :
    Db × Bool :=
  match db.skills.find? (fun s => s.name == p.name) with
  | some _ =>
    let sk := db.skills.map (fun s =>
      if s.name == p.name then
        { s with version := p.version, source := p.source,
                 project_path := nonEmpty p.project_path }
      else s)
    ({ db with skills := sk }, true)
  | none =>
    let row : SkillRow :=
      { id := db.nextSkillId, name := p.name, version := p.version,
        source := p.source, project_path := nonEmpty p.project_path,
        installed_by := nonEmpty p.installed_by,
        installed_at := sqliteNow nowMs, last_used_at := none, use_count := 0 }
    ({ db with skills := db.skills ++ [row], nextSkillId := db.nextSkillId + 1 },
     true)

/-- skillUsageStart: INSERT INTO skill_usage — rejected by SQLite's
foreign-key enforcement (PRAGMA foreign_keys = ON and skill_usage.skill_name
REFERENCES skills(name)) when no such skill row exists, in which case the
statement throws and the follow-up UPDATE of last_used_at never runs —
then UPDATE skills SET last_used_at = CURRENT_TIMESTAMP. -/
def skillUsageStart (nowMs : Nat) (db : Db) (p : SkillUsageStartParams) :
    Db × Except DbError Nat :=
  if db.skills.any (fun s => s.name == p.skill_name) then
    let row : UsageRow :=
      { id := db.nextUsageId, skill_name := p.skill_name,
        project_path := nonEmpty p.project_path,
        started_at := some (sqliteNow nowMs), completed_at := none,
        success := none, outcome := none, tokens_used := none, notes := none }
    let db2 := { db with skill_usage := db.skill_usage ++ [row],
                         nextUsageId := db.nextUsageId + 1 }
    let db3 := { db2 with skills := db2.skills.map (fun s =>
      if s.name == p.skill_name then { s with last_used_at := some (sqliteNow nowMs) }
      else s) }
    (db3, Except.ok row.id)
  else
    (db, Except.error (DbError.constraint ("FOREIGN KEY constraint failed")))

/-- The SET clause of skill_usage_end's UPDATE: stamp completed_at, store
the success flag as 0/1, and store outcome, tokens_used and notes through
the JavaScript x-or-null defaulting. -/
def completeUsage (nowMs : Nat) (p : SkillUsageEndParams) (u : UsageRow) :
    UsageRow :=
  { u with completed_at := some (sqliteNow nowMs),
           success := some p.success,
           outcome := nonEmpty p.outcome,
           tokens_used := orNullNat p.tokens_used,
           notes := nonEmpty p.notes }

/-- skillUsageEnd: UPDATE the usage row by id (completed_at, success,
outcome, tokens_used, notes), then SELECT its skill_name back and, whenever
that row exists, UPDATE skills SET use_count = use_count + 1 for that name.
The call reports success either way. -/
def skillUsageEnd (nowMs : Nat) (db : Db) (p : SkillUsageEndParams) :
    Db × Bool :=
  let usage2 := db.skill_usage.map (fun u =>
    if u.id == p.usage_id then completeUsage nowMs p u else u)
  let db2 := { db with skill_usage := usage2 }
  match db2.skill_usage.find? (fun u => u.id == p.usage_id) with
  | some u =>
    ({ db2 with skills := db2.skills.map (fun s =>
        if s.name == u.skill_name then { s with use_count := s.use_count + 1 }
        else s) }, true)
  | none => (db2, true)

/-- Parameters of skill_recommend. -/
structure SkillRecommendParams where
  project_type : Option String
  limit : Option Nat

/-- One ranked row of the recommendation result. -/
structure RecRow where
  skill : SkillRow
  success_rate : Rat
  usage_count : Nat
deriving DecidableEq

/-- Modelled from SQLite LIKE with pattern '%' ++ t ++ '%' for a text t
containing no wildcard metacharacters: case-insensitive (ASCII) substring
containment, null never matching. -/
def likeContains (t : String) : Option String → Bool
  | none => false
  | some s => listSubB (t.data.map asciiLower) (s.data.map asciiLower)

/-- The joined usage rows of one skill: LEFT JOIN skill_usage u ON
s.name = u.skill_name. -/
def usagesFor (db : Db) (name : String) : List UsageRow :=
  db.skill_usage.filter (fun u => u.skill_name == name)

/-- One usage row's contribution to the average:
CASE WHEN u.success THEN 1.0 ELSE 0.0 END — NULL success falls to the ELSE
branch just as stored 0 does. -/
def usageScore (u : UsageRow) : Rat :=
  if u.success == some true then 1 else 0

/-- AVG of the per-row scores over a non-empty group. -/
def avgScore (us : List UsageRow) : Rat :=
  (us.map usageScore).sum / (us.length : Rat)

/-- Ranking relation of ORDER BY success_rate DESC, usage_count DESC:
whether a row already placed may stay in front of the row being inserted. -/
def recBefore (a b : RecRow) : Bool :=
  if a.success_rate = b.success_rate then decide (b.usage_count ≤ a.usage_count)
  else decide (b.success_rate < a.success_rate)

/-- Insertion step of the ranking sort. -/
def insertRec (a : RecRow) : List RecRow → List RecRow
  | [] => [a]
  | b :: rest =>
    if recBefore b a then b :: insertRec a rest else a :: b :: rest

/-- Stable sort by the ranking relation. -/
def sortRec : List RecRow → List RecRow
  | [] => []
  | x :: xs => insertRec x (sortRec xs)

/-- skillRecommend. With a project_type: LEFT JOIN filtered by
u.project_path LIKE '%'||t||'%' (which discards the null-extended rows, so
only skills with a matching usage form a group), GROUP BY s.id with the
averaged score and COUNT(u.id), HAVING usage_count > 0, ORDER BY
success_rate DESC, usage_count DESC, LIMIT. Without one: the same grouped
aggregation over the unfiltered LEFT JOIN, where a skill with no usages
keeps its single null-extended row — COUNT(u.id) is 0 and the average of
that row's ELSE-branch score is 0 — and no HAVING clause removes it. -/
def skillRecommend (db : Db) (p : SkillRecommendParams) : List RecRow :=
  let lim := p.limit.getD 5
  let rows : List RecRow :=
    match p.project_type with
    | some t =>
      db.skills.filterMap (fun s =>
        let us := (usagesFor db s.name).filter (fun u => likeContains t u.project_path)
        if us.isEmpty then none
        else some { skill := s, success_rate := avgScore us, usage_count := us.length })
    | none =>
      db.skills.map (fun s =>
        let us := usagesFor db s.name
        if us.isEmpty then { skill := s, success_rate := 0, usage_count := 0 }
        else { skill := s, success_rate := avgScore us, usage_count := us.length })
  (sortRec rows).take lim

/-! ## Round-trip lemmas for the platform JSON pair -/

/-- A context in which a rendered number ends correctly: end of input or a
non-digit delimiter. -/
def stopsNum : List Char → Prop
  | [] => True
  | c :: _ => c.isDigit = false

/-- Digit value folding, the arithmetic `parseNatAux` performs. -/
def accDigits (acc : Nat) (ds : List Char) : Nat :=
  ds.foldl (fun a c => a * 10 + digitVal c) acc

theorem digitChar_isDigit : ∀ d, d < 10 → (digitChar d).isDigit = true := by
  decide

theorem digitVal_digitChar : ∀ d, d < 10 → digitVal (digitChar d) = d := by
  decide

theorem natCharsF_digits : ∀ fuel n, n < fuel →
    ∀ c ∈ natCharsF fuel n, c.isDigit = true := by
  intro fuel
  induction fuel with
  | zero => omega
  | succ f ih =>
    intro n hn c hc
    by_cases h10 : n < 10
    · simp only [natCharsF, if_pos h10, List.mem_singleton] at hc
      subst hc
      exact digitChar_isDigit n h10
    · simp only [natCharsF, if_neg h10, List.mem_append, List.mem_singleton] at hc
      rcases hc with hc | hc
      · have hdiv : n / 10 < f := by
          have := Nat.div_lt_self (by omega : 0 < n) (by omega : 1 < 10)
          omega
        exact ih (n / 10) hdiv c hc
      · subst hc
        exact digitChar_isDigit (n % 10) (Nat.mod_lt n (by omega))

theorem natCharsF_ne_nil : ∀ fuel n, n < fuel → natCharsF fuel n ≠ [] := by
  intro fuel
  cases fuel with
  | zero => omega
  | succ f =>
    intro n _ h
    by_cases h10 : n < 10
    · simp [natCharsF, if_pos h10] at h
    · simp [natCharsF, if_neg h10] at h

theorem foldl_natCharsF : ∀ fuel n acc, n < fuel →
    accDigits acc (natCharsF fuel n) =
      acc * 10 ^ (natCharsF fuel n).length + n := by
  intro fuel
  induction fuel with
  | zero => omega
  | succ f ih =>
    intro n acc hn
    by_cases h10 : n < 10
    · simp [natCharsF, if_pos h10, accDigits, digitVal_digitChar n h10]
    · have hdiv : n / 10 < f := by
        have := Nat.div_lt_self (by omega : 0 < n) (by omega : 1 < 10)
        omega
      have hmod : n % 10 < 10 := Nat.mod_lt n (by omega)
      simp only [natCharsF, if_neg h10, accDigits, List.foldl_append,
        List.foldl_cons, List.foldl_nil, List.length_append,
        List.length_singleton]
      have hih := ih (n / 10) acc hdiv
      simp only [accDigits] at hih
      rw [hih, digitVal_digitChar (n % 10) hmod, pow_succ]
      have := Nat.div_add_mod n 10
      ring_nf
      omega

theorem parseNatAux_spec : ∀ ds rest acc,
    (∀ c ∈ ds, c.isDigit = true) → stopsNum rest →
    parseNatAux (ds ++ rest) acc = (accDigits acc ds, rest) := by
  intro ds
  induction ds with
  | nil =>
    intro rest acc _ hstop
    cases rest with
    | nil => simp [parseNatAux, accDigits]
    | cons c cs =>
      simp only [stopsNum] at hstop
      simp [parseNatAux, hstop, accDigits]
  | cons d ds ih =>
    intro rest acc hd hstop
    have hdd : d.isDigit = true := hd d (by simp)
    simp only [List.cons_append, parseNatAux, hdd, if_pos, List.append_eq]
    rw [ih rest (acc * 10 + digitVal d) (fun c hc => hd c (by simp [hc])) hstop]
    simp [accDigits]

theorem parseNatAux_natChars (n : Nat) (rest : List Char) (h : stopsNum rest) :
    parseNatAux (natChars n ++ rest) 0 = (n, rest) := by
  unfold natChars
  rw [parseNatAux_spec _ _ _ (natCharsF_digits (n + 1) n (by omega)) h,
    foldl_natCharsF (n + 1) n 0 (by omega)]
  simp

theorem hexVal_hexDigit : ∀ d, d < 16 → hexVal? (hexDigit d) = some d := by
  decide

theorem parseStr_escape : ∀ s rest, parseStr (escape s ++ '"' :: rest) = some (s, rest) := by
  intro s
  induction s with
  | nil =>
    intro rest
    rw [show escape [] ++ '"' :: rest = '"' :: rest by simp [escape],
      parseStr.eq_def]
    simp
  | cons c s ih =>
    intro rest
    rw [show escape (c :: s) = escapeChar c ++ escape s by simp [escape],
      List.append_assoc]
    by_cases h1 : c = '"'
    · subst h1
      simp only [escapeChar, if_pos rfl, List.cons_append, List.nil_append]
      rw [parseStr.eq_def]
      simp [simpleUnescape, ih rest]
    · by_cases h2 : c = '\\'
      · subst h2
        simp only [escapeChar, if_pos rfl, if_neg (by decide : ¬('\\' = '"')),
          List.cons_append, List.nil_append]
        rw [parseStr.eq_def]
        simp [simpleUnescape, ih rest]
      · by_cases h3 : c.toNat = 8
        · have hc : Char.ofNat 8 = c := by rw [← h3]; exact Char.ofNat_toNat c
          simp only [escapeChar, h1, h2, h3, if_neg, if_pos, if_false,
            List.cons_append, List.nil_append]
          rw [parseStr.eq_def]
          simp [simpleUnescape, ih rest]
          exact hc
        · by_cases h4 : c.toNat = 9
          · have hc : Char.ofNat 9 = c := by rw [← h4]; exact Char.ofNat_toNat c
            simp only [escapeChar, h1, h2, h3, h4, if_neg, if_pos, if_false,
              List.cons_append, List.nil_append]
            rw [parseStr.eq_def]
            simp [simpleUnescape, ih rest]
            exact hc
          · by_cases h5 : c.toNat = 10
            · have hc : Char.ofNat 10 = c := by rw [← h5]; exact Char.ofNat_toNat c
              simp only [escapeChar, h1, h2, h3, h4, h5, if_neg, if_pos, if_false,
                List.cons_append, List.nil_append]
              rw [parseStr.eq_def]
              simp [simpleUnescape, ih rest]
              exact hc
            · by_cases h6 : c.toNat = 12
              · have hc : Char.ofNat 12 = c := by rw [← h6]; exact Char.ofNat_toNat c
                simp only [escapeChar, h1, h2, h3, h4, h5, h6, if_neg, if_pos,
                  if_false, List.cons_append, List.nil_append]
                rw [parseStr.eq_def]
                simp [simpleUnescape, ih rest]
                exact hc
              · by_cases h7 : c.toNat = 13
                · have hc : Char.ofNat 13 = c := by
                    rw [← h7]; exact Char.ofNat_toNat c
                  simp only [escapeChar, h1, h2, h3, h4, h5, h6, h7, if_neg,
                    if_pos, if_false, List.cons_append, List.nil_append]
                  rw [parseStr.eq_def]
                  simp [simpleUnescape, ih rest]
                  exact hc
                · by_cases h8 : c.toNat < 32
                  · have hdiv : c.toNat / 16 < 16 := by omega
                    have hmod : c.toNat % 16 < 16 := by omega
                    have harith : c.toNat / 16 * 16 + c.toNat % 16 = c.toNat := by
                      omega
                    simp only [escapeChar, h1, h2, h3, h4, h5, h6, h7, h8,
                      if_neg, if_pos, if_false, if_true, List.cons_append,
                      List.nil_append]
                    rw [parseStr.eq_def]
                    have h0 : hexVal? '0' = some 0 := by decide
                    simp [h0, hexVal_hexDigit _ hdiv, hexVal_hexDigit _ hmod,
                      harith, ih rest, Char.ofNat_toNat]
                  · simp only [escapeChar, h1, h2, h3, h4, h5, h6, h7, h8,
                      if_neg, if_false, List.cons_append, List.nil_append]
                    rw [parseStr.eq_def]
                    simp [h1, h2, ih rest]

theorem jsize_pos : ∀ v, 1 ≤ jsize v := by
  intro v
  cases v <;> simp [jsize]

theorem jsizeElems_pos : ∀ xs, 1 ≤ jsizeElems xs := by
  intro xs
  cases xs <;> simp [jsizeElems]
  omega

theorem jsizeFields_pos : ∀ kvs, 1 ≤ jsizeFields kvs := by
  intro kvs
  cases kvs <;> simp [jsizeFields]
  omega

theorem encodeF_fuel_all : ∀ f,
    (∀ v g, jsize v ≤ f → jsize v ≤ g → encodeF f v = encodeF g v) ∧
    (∀ xs g, jsizeElems xs ≤ f → jsizeElems xs ≤ g →
      encodeElemsF f xs = encodeElemsF g xs) ∧
    (∀ kvs g, jsizeFields kvs ≤ f → jsizeFields kvs ≤ g →
      encodeFieldsF f kvs = encodeFieldsF g kvs) := by
  intro f
  induction f with
  | zero =>
    refine ⟨fun v g hf _ => absurd hf (by have := jsize_pos v; omega),
      fun xs g hf _ => absurd hf (by have := jsizeElems_pos xs; omega),
      fun kvs g hf _ => absurd hf (by have := jsizeFields_pos kvs; omega)⟩
  | succ f ih =>
    refine ⟨?_, ?_, ?_⟩
    · intro v g hf hg
      obtain ⟨g', rfl⟩ : ∃ g', g = g' + 1 :=
        ⟨g - 1, by have := jsize_pos v; omega⟩
      cases v with
      | null => rfl
      | bool b => cases b <;> rfl
      | num n => rfl
      | str s => rfl
      | arr xs =>
        have hsz : jsizeElems xs ≤ f ∧ jsizeElems xs ≤ g' := by
          simp [jsize] at hf hg; omega
        simp only [encodeF]
        rw [ih.2.1 xs g' hsz.1 hsz.2]
      | obj kvs =>
        have hsz : jsizeFields kvs ≤ f ∧ jsizeFields kvs ≤ g' := by
          simp [jsize] at hf hg; omega
        simp only [encodeF]
        rw [ih.2.2 kvs g' hsz.1 hsz.2]
    · intro xs g hf hg
      obtain ⟨g', rfl⟩ : ∃ g', g = g' + 1 :=
        ⟨g - 1, by have := jsizeElems_pos xs; omega⟩
      cases xs with
      | nil => rfl
      | cons x xs' =>
        cases xs' with
        | nil =>
          have hsz : jsize x ≤ f ∧ jsize x ≤ g' := by
            simp [jsizeElems] at hf hg
            have := jsizeElems_pos ([] : List Json)
            omega
          simp only [encodeElemsF]
          exact ih.1 x g' hsz.1 hsz.2
        | cons y r =>
          have hx : jsize x ≤ f ∧ jsize x ≤ g' := by
            simp [jsizeElems] at hf hg
            have := jsizeElems_pos r
            have := jsize_pos y
            omega
          have hr : jsizeElems (y :: r) ≤ f ∧ jsizeElems (y :: r) ≤ g' := by
            simp [jsizeElems] at hf hg ⊢
            have := jsize_pos x
            omega
          simp only [encodeElemsF]
          rw [ih.1 x g' hx.1 hx.2, ih.2.1 (y :: r) g' hr.1 hr.2]
    · intro kvs g hf hg
      obtain ⟨g', rfl⟩ : ∃ g', g = g' + 1 :=
        ⟨g - 1, by have := jsizeFields_pos kvs; omega⟩
      cases kvs with
      | nil => rfl
      | cons kv kvs' =>
        cases kvs' with
        | nil =>
          have hsz : jsize kv.2 ≤ f ∧ jsize kv.2 ≤ g' := by
            simp [jsizeFields] at hf hg
            have := jsizeFields_pos ([] : List (List Char × Json))
            omega
          simp only [encodeFieldsF]
          rw [ih.1 kv.2 g' hsz.1 hsz.2]
        | cons p r =>
          have hx : jsize kv.2 ≤ f ∧ jsize kv.2 ≤ g' := by
            simp [jsizeFields] at hf hg
            have := jsizeFields_pos r
            have := jsize_pos p.2
            omega
          have hr : jsizeFields (p :: r) ≤ f ∧ jsizeFields (p :: r) ≤ g' := by
            simp [jsizeFields] at hf hg ⊢
            have := jsize_pos kv.2
            omega
          simp only [encodeFieldsF]
          rw [ih.1 kv.2 g' hx.1 hx.2, ih.2.2 (p :: r) g' hr.1 hr.2]

/-- The characters a rendered JSON value can begin with. -/
def jsonHead (c : Char) : Prop :=
  c.isDigit = true ∨ c = '-' ∨ c = '"' ∨ c = '[' ∨ c = '{' ∨
    c = 'n' ∨ c = 't' ∨ c = 'f'

theorem jsonHead_ne_close (c : Char) (h : jsonHead c) : c ≠ ']' ∧ c ≠ '}' := by
  rcases h with h | h | h | h | h | h | h | h
  · constructor <;> intro he <;> subst he <;> simp at h
  all_goals subst h; constructor <;> decide

theorem natChars_shape (n : Nat) :
    ∃ c cs, natChars n = c :: cs ∧ c.isDigit = true := by
  have hne := natCharsF_ne_nil (n + 1) n (by omega)
  obtain ⟨c, cs, hc⟩ := List.exists_cons_of_ne_nil hne
  refine ⟨c, cs, hc, ?_⟩
  exact natCharsF_digits (n + 1) n (by omega) c (by rw [hc]; simp)

theorem encodeF_head : ∀ f v, jsize v ≤ f →
    ∃ c cs, encodeF f v = c :: cs ∧ jsonHead c := by
  intro f v hf
  obtain ⟨f', rfl⟩ : ∃ f', f = f' + 1 :=
    ⟨f - 1, by have := jsize_pos v; omega⟩
  cases v with
  | null => exact ⟨'n', _, rfl, by simp [jsonHead]⟩
  | bool b =>
    cases b
    · exact ⟨'f', _, rfl, by simp [jsonHead]⟩
    · exact ⟨'t', _, rfl, by simp [jsonHead]⟩
  | num n =>
    cases n with
    | ofNat m =>
      obtain ⟨c, cs, hc, hd⟩ := natChars_shape m
      exact ⟨c, cs, by simp [encodeF, intChars, hc], Or.inl hd⟩
    | negSucc m =>
      exact ⟨'-', _, rfl, by simp [jsonHead]⟩
  | str s => exact ⟨'"', _, rfl, by simp [jsonHead]⟩
  | arr xs => exact ⟨'[', _, rfl, by simp [jsonHead]⟩
  | obj kvs => exact ⟨'{', _, rfl, by simp [jsonHead]⟩

theorem encodeElemsF_head : ∀ f x xs, jsizeElems (x :: xs) ≤ f →
    ∃ c cs, encodeElemsF f (x :: xs) = c :: cs ∧ jsonHead c := by
  intro f x xs hf
  obtain ⟨f', rfl⟩ : ∃ f', f = f' + 1 :=
    ⟨f - 1, by have := jsizeElems_pos (x :: xs); omega⟩
  have hx : jsize x ≤ f' := by
    simp [jsizeElems] at hf
    have := jsizeElems_pos xs
    omega
  obtain ⟨c, cs, hc, hh⟩ := encodeF_head f' x hx
  cases xs with
  | nil => exact ⟨c, cs, by simp [encodeElemsF, hc], hh⟩
  | cons y r =>
    exact ⟨c, cs ++ ',' :: encodeElemsF f' (y :: r),
      by simp [encodeElemsF, hc], hh⟩

theorem parse_encode_all : ∀ f,
    (∀ v rest, jsize v < f → stopsNum rest →
      parseValueF f (encodeF f v ++ rest) = some (v, rest)) ∧
    (∀ x xs rest, jsizeElems (x :: xs) < f →
      parseElemsF f (encodeElemsF f (x :: xs) ++ ']' :: rest) =
        some (x :: xs, rest)) ∧
    (∀ kv kvs rest, jsizeFields (kv :: kvs) < f →
      parseFieldsF f (encodeFieldsF f (kv :: kvs) ++ '}' :: rest) =
        some (kv :: kvs, rest)) := by
  intro f
  induction f with
  | zero =>
    refine ⟨fun v _ h _ => absurd h (by have := jsize_pos v; omega),
      fun x xs _ h => absurd h (by have := jsizeElems_pos (x :: xs); omega),
      fun kv kvs _ h => absurd h (by have := jsizeFields_pos (kv :: kvs); omega)⟩
  | succ f ih =>
    obtain ⟨ihP, ihQ, ihR⟩ := ih
    refine ⟨?_, ?_, ?_⟩
    · intro v rest hsz hstop
      cases v with
      | null =>
        rw [parseValueF.eq_def]
        simp [encodeF]
      | bool b =>
        cases b <;> (rw [parseValueF.eq_def]; simp [encodeF])
      | num n =>
        cases n with
        | ofNat m =>
          obtain ⟨c, cs, hc, hd⟩ := natChars_shape m
          have hval := parseNatAux_natChars m rest hstop
          rw [hc] at hval
          rw [show encodeF (f + 1) (Json.num (Int.ofNat m)) = natChars m from rfl,
            hc, parseValueF.eq_def]
          simp only [List.cons_append, List.append_eq]
          simp only [List.cons_append] at hval
          simp [hd, hval]
        | negSucc m =>
          obtain ⟨c, cs, hc, hd⟩ := natChars_shape (m + 1)
          have hval := parseNatAux_natChars (m + 1) rest hstop
          rw [hc] at hval
          rw [show encodeF (f + 1) (Json.num (Int.negSucc m)) =
              '-' :: natChars (m + 1) from rfl, hc, parseValueF.eq_def]
          simp only [List.cons_append, List.append_eq]
          simp only [List.cons_append] at hval
          simp [hd, hval, Int.negSucc_eq]
          try omega
      | str s =>
        rw [show encodeF (f + 1) (Json.str s) = '"' :: escape s ++ ['"'] from rfl,
          parseValueF.eq_def]
        simp [parseStr_escape s rest]
      | arr xs =>
        cases xs with
        | nil =>
          have hf1 : 1 ≤ f := by
            simp [jsize] at hsz
            have := jsizeElems_pos ([] : List Json)
            omega
          obtain ⟨f', rfl⟩ : ∃ f', f = f' + 1 := ⟨f - 1, by omega⟩
          rw [show encodeF (f' + 1 + 1) (Json.arr []) =
              '[' :: encodeElemsF (f' + 1) [] ++ [']'] from rfl]
          rw [show encodeElemsF (f' + 1) ([] : List Json) = [] from rfl,
            parseValueF.eq_def]
          simp
        | cons x xs' =>
          have hq : jsizeElems (x :: xs') < f := by
            simp [jsize] at hsz; omega
          obtain ⟨c, cs, hcE, hh⟩ := encodeElemsF_head f x xs' (by omega)
          have hne := (jsonHead_ne_close c hh).1
          rw [show encodeF (f + 1) (Json.arr (x :: xs')) =
              '[' :: encodeElemsF f (x :: xs') ++ [']'] from rfl,
            parseValueF.eq_def]
          simp only [List.cons_append, List.append_assoc, List.nil_append,
            List.append_eq]
          have hq2 := ihQ x xs' rest hq
          rw [hcE] at hq2
          simp only [List.cons_append] at hq2
          simp [hcE, hne, hq2]
      | obj kvs =>
        cases kvs with
        | nil =>
          have hf1 : 1 ≤ f := by
            simp [jsize] at hsz
            have := jsizeFields_pos ([] : List (List Char × Json))
            omega
          obtain ⟨f', rfl⟩ : ∃ f', f = f' + 1 := ⟨f - 1, by omega⟩
          rw [show encodeF (f' + 1 + 1) (Json.obj []) =
              '{' :: encodeFieldsF (f' + 1) [] ++ ['}'] from rfl]
          rw [show encodeFieldsF (f' + 1) ([] : List (List Char × Json)) = []
              from rfl, parseValueF.eq_def]
          simp
        | cons kv kvs' =>
          have hq : jsizeFields (kv :: kvs') < f := by
            simp [jsize] at hsz; omega
          have hf1 : 1 ≤ f := by have := jsizeFields_pos (kv :: kvs'); omega
          obtain ⟨f', rfl⟩ : ∃ f', f = f' + 1 := ⟨f - 1, by omega⟩
          have hq2 := ihR kv kvs' rest hq
          rw [show encodeF (f' + 1 + 1) (Json.obj (kv :: kvs')) =
              '{' :: encodeFieldsF (f' + 1) (kv :: kvs') ++ ['}'] from rfl,
            parseValueF.eq_def]
          obtain ⟨k, v⟩ := kv
          cases kvs' with
          | nil =>
            rw [show encodeFieldsF (f' + 1) [(k, v)] =
                '"' :: escape k ++ '"' :: ':' :: encodeF f' v from rfl] at hq2 ⊢
            simp only [List.cons_append, List.append_assoc, List.nil_append,
              List.append_eq] at hq2 ⊢
            simp [hq2]
          | cons p r =>
            rw [show encodeFieldsF (f' + 1) ((k, v) :: p :: r) =
                ('"' :: escape k ++ '"' :: ':' :: encodeF f' v) ++
                  ',' :: encodeFieldsF f' (p :: r) from rfl] at hq2 ⊢
            simp only [List.cons_append, List.append_assoc, List.nil_append,
              List.append_eq] at hq2 ⊢
            simp [hq2]
    · intro x xs rest hsz
      cases xs with
      | nil =>
        have hx : jsize x < f := by
          simp [jsizeElems] at hsz
          have := jsizeElems_pos ([] : List Json)
          omega
        have hP := ihP x (']' :: rest) hx (by simp [stopsNum])
        rw [show encodeElemsF (f + 1) [x] = encodeF f x from rfl,
          parseElemsF.eq_def]
        simp [hP]
      | cons y r =>
        have hx : jsize x < f := by
          simp [jsizeElems] at hsz
          have := jsizeElems_pos r
          have := jsize_pos y
          omega
        have hyr : jsizeElems (y :: r) < f := by
          simp [jsizeElems] at hsz ⊢
          have := jsize_pos x
          omega
        have hP := ihP x (',' :: (encodeElemsF f (y :: r) ++ ']' :: rest)) hx
          (by simp [stopsNum])
        have hQ := ihQ y r rest hyr
        rw [show encodeElemsF (f + 1) (x :: y :: r) =
            encodeF f x ++ ',' :: encodeElemsF f (y :: r) from rfl,
          parseElemsF.eq_def]
        simp only [List.cons_append, List.append_assoc, List.nil_append,
          List.append_eq] at hP ⊢
        simp [hP, hQ]
    · intro kv kvs rest hsz
      obtain ⟨k, v⟩ := kv
      cases kvs with
      | nil =>
        have hv : jsize v < f := by
          simp [jsizeFields] at hsz
          have := jsizeFields_pos ([] : List (List Char × Json))
          omega
        have hP := ihP v ('}' :: rest) hv (by simp [stopsNum])
        rw [show encodeFieldsF (f + 1) [(k, v)] =
            '"' :: escape k ++ '"' :: ':' :: encodeF f v from rfl,
          parseFieldsF.eq_def]
        simp only [List.cons_append, List.append_assoc, List.nil_append,
          List.append_eq] at hP ⊢
        simp [parseStr_escape k, hP]
      | cons p r =>
        have hv : jsize v < f := by
          simp [jsizeFields] at hsz
          have := jsizeFields_pos r
          have := jsize_pos p.2
          omega
        have hpr : jsizeFields (p :: r) < f := by
          simp [jsizeFields] at hsz ⊢
          have := jsize_pos v
          omega
        have hP := ihP v (',' :: (encodeFieldsF f (p :: r) ++ '}' :: rest)) hv
          (by simp [stopsNum])
        have hR := ihR p r rest hpr
        rw [show encodeFieldsF (f + 1) ((k, v) :: p :: r) =
            ('"' :: escape k ++ '"' :: ':' :: encodeF f v) ++
              ',' :: encodeFieldsF f (p :: r) from rfl,
          parseFieldsF.eq_def]
        simp only [List.cons_append, List.append_assoc, List.nil_append,
          List.append_eq] at hP ⊢
        simp [parseStr_escape k, hP, hR]

theorem jsize_le_encode_len : ∀ f,
    (∀ v, jsize v ≤ f → jsize v ≤ 2 * (encodeF f v).length) ∧
    (∀ xs, jsizeElems xs ≤ f →
      jsizeElems xs ≤ 2 * (encodeElemsF f xs).length + 2) ∧
    (∀ kvs, jsizeFields kvs ≤ f →
      jsizeFields kvs ≤ 2 * (encodeFieldsF f kvs).length + 2) := by
  intro f
  induction f with
  | zero =>
    refine ⟨fun v h => absurd h (by have := jsize_pos v; omega),
      fun xs h => absurd h (by have := jsizeElems_pos xs; omega),
      fun kvs h => absurd h (by have := jsizeFields_pos kvs; omega)⟩
  | succ f ih =>
    obtain ⟨ihV, ihE, ihF⟩ := ih
    refine ⟨?_, ?_, ?_⟩
    · intro v hf
      cases v with
      | null => simp [jsize, encodeF]
      | bool b => cases b <;> simp [jsize, encodeF]
      | num n =>
        cases n with
        | ofNat m =>
          have := natChars_shape m
          obtain ⟨c, cs, hc, _⟩ := this
          simp [jsize, encodeF, intChars, hc]
          omega
        | negSucc m =>
          simp [jsize, encodeF, intChars]
          omega
      | str s =>
        simp [jsize, encodeF]
        omega
      | arr xs =>
        have hxs : jsizeElems xs ≤ f := by simp [jsize] at hf; omega
        have := ihE xs hxs
        simp [jsize, encodeF]
        omega
      | obj kvs =>
        have hkvs : jsizeFields kvs ≤ f := by simp [jsize] at hf; omega
        have := ihF kvs hkvs
        simp [jsize, encodeF]
        omega
    · intro xs hf
      cases xs with
      | nil => simp [jsizeElems, encodeElemsF]
      | cons x xs' =>
        cases xs' with
        | nil =>
          have hx : jsize x ≤ f := by
            simp [jsizeElems] at hf
            have := jsizeElems_pos ([] : List Json)
            omega
          have := ihV x hx
          simp [jsizeElems, encodeElemsF]
          omega
        | cons y r =>
          have hx : jsize x ≤ f := by
            simp [jsizeElems] at hf
            have := jsizeElems_pos r
            have := jsize_pos y
            omega
          have hyr : jsizeElems (y :: r) ≤ f := by
            simp [jsizeElems] at hf ⊢
            have := jsize_pos x
            omega
          have h1 := ihV x hx
          have h2 := ihE (y :: r) hyr
          simp [jsizeElems] at h2 ⊢
          simp [encodeElemsF]
          omega
    · intro kvs hf
      cases kvs with
      | nil => simp [jsizeFields, encodeFieldsF]
      | cons kv kvs' =>
        obtain ⟨k, v⟩ := kv
        cases kvs' with
        | nil =>
          have hv : jsize v ≤ f := by
            simp [jsizeFields] at hf
            have := jsizeFields_pos ([] : List (List Char × Json))
            omega
          have := ihV v hv
          simp [jsizeFields, encodeFieldsF]
          omega
        | cons p r =>
          have hv : jsize v ≤ f := by
            simp [jsizeFields] at hf
            have := jsizeFields_pos r
            have := jsize_pos p.2
            omega
          have hpr : jsizeFields (p :: r) ≤ f := by
            simp [jsizeFields] at hf ⊢
            have := jsize_pos v
            omega
          have h1 := ihV v hv
          have h2 := ihF (p :: r) hpr
          simp [jsizeFields] at h2 ⊢
          simp [encodeFieldsF]
          omega

/-- The platform round-trip fact at the heart of the context store's
contract: JSON.parse inverts JSON.stringify on every structured value. -/
theorem decode_encode (v : Json) : decode (encode v) = some v := by
  have hsz : jsize v < jsize v + 1 := by omega
  have hmain := (parse_encode_all (jsize v + 1)).1 v [] hsz (by simp [stopsNum])
  rw [List.append_nil] at hmain
  have hlen : jsize v ≤ 2 * (encode v).length :=
    (jsize_le_encode_len (jsize v)).1 v (by omega)
  have hcong : encodeF (jsize v + 1) v = encode v :=
    (encodeF_fuel_all (jsize v + 1)).1 v (jsize v) (by omega) (by omega)
  rw [hcong] at hmain
  have hcong2 : encodeF (2 * (encode v).length + 2) v = encode v :=
    (encodeF_fuel_all (2 * (encode v).length + 2)).1 v (jsize v)
      (by omega) (by omega)
  have hmain2 := (parse_encode_all (2 * (encode v).length + 2)).1 v []
    (by omega) (by simp [stopsNum])
  rw [List.append_nil, hcong2] at hmain2
  unfold decode
  rw [hmain2]

/-! ## List lemmas about the SQL row-update and row-scan patterns -/

theorem find?_map_ite {α : Type} (l : List α) (pred : α → Bool) (upd : α → α)
    (h : ∀ r, pred (upd r) = pred r) :
    (l.map (fun r => if pred r then upd r else r)).find? pred =
      (l.find? pred).map upd := by
  induction l with
  | nil => simp
  | cons a l ih =>
    by_cases ha : pred a = true
    · simp [List.find?_cons, ha, h a]
    · simp only [Bool.not_eq_true] at ha
      simp [List.find?_cons, ha, ih]

theorem find?_filter_keep {α : Type} (l : List α) (pred keep : α → Bool)
    (h : ∀ r ∈ l, pred r = true → keep r = true) :
    (l.filter keep).find? pred = l.find? pred := by
  induction l with
  | nil => simp
  | cons a l ih =>
    have ih2 := ih (fun r hr hp => h r (by simp [hr]) hp)
    by_cases ha : pred a = true
    · have hk : keep a = true := h a (by simp) ha
      simp [List.filter_cons, hk, List.find?_cons, ha]
    · simp only [Bool.not_eq_true] at ha
      by_cases hk : keep a = true
      · simp [List.filter_cons, hk, List.find?_cons, ha, ih2]
      · simp only [Bool.not_eq_true] at hk
        simp [List.filter_cons, hk, List.find?_cons, ha, ih2]

theorem mem_insertRec (a x : RecRow) (l : List RecRow) :
    x ∈ insertRec a l → x = a ∨ x ∈ l := by
  induction l with
  | nil => simp [insertRec]
  | cons b l ih =>
    simp only [insertRec]
    by_cases hb : recBefore b a = true
    · simp only [hb, if_true, List.mem_cons]
      intro h
      rcases h with h | h
      · right; simp [h]
      · rcases ih h with h2 | h2
        · left; exact h2
        · right; simp [h2]
    · rw [if_neg hb]
      intro h
      exact List.mem_cons.1 h

theorem mem_sortRec (x : RecRow) (l : List RecRow) :
    x ∈ sortRec l → x ∈ l := by
  induction l with
  | nil => simp [sortRec]
  | cons a l ih =>
    simp only [sortRec]
    intro h
    rcases mem_insertRec a x (sortRec l) h with h2 | h2
    · simp [h2]
    · simp [ih h2]

theorem sum_usageScore (us : List UsageRow) :
    (us.map usageScore).sum =
      ((us.countP (fun u => u.success == some true) : Nat) : Rat) := by
  induction us with
  | nil => simp
  | cons u us ih =>
    by_cases hu : (u.success == some true) = true
    · simp [usageScore, hu, List.countP_cons, ih]
      ring
    · simp only [Bool.not_eq_true] at hu
      simp [usageScore, hu, List.countP_cons, ih]

/-! ## Claim theorems -/

/-- C8: contextSet followed by contextGet on the same (session_id, key),
with no expiry on the entry, revives a value structurally equal to the one
stored, whatever the state of the rest of the context table and whenever the
read happens. -/
theorem C8_context_round_trip (db : Db) (t1 t2 : Nat) (s k : String)
    (v : Json) (sn : Option String) :
    (contextGet t2
      (contextSet t1 db
        { session_id := s, key := k, value := v, skill_name := sn,
          expires_in_minutes := none }).1 s k).2 =
      some (CtxValue.parsed v) := by
  unfold contextSet
  simp only
  set pred := fun r : ContextRow => r.session_id == s && r.key == k with hpred
  cases hfind : db.context.find? pred with
  | some r0 =>
    simp only [hfind]
    unfold contextGet purgeExpired
    simp only
    set upd := fun r : ContextRow =>
      { r with value := encode v, skill_name := nonEmpty sn,
               expires_at := (none : Option (List Char)) } with hupd
    set keep := fun r : ContextRow =>
      match r.expires_at with
      | some e => !(listLtB e (sqliteNow t2))
      | none => true with hkeep
    have hpu : ∀ r, pred (upd r) = pred r := by intro r; rfl
    have hmap := find?_map_ite db.context pred upd hpu
    have hfk : ∀ r ∈ db.context.map (fun r => if pred r then upd r else r),
        pred r = true → keep r = true := by
      intro r hr hp
      obtain ⟨r1, _, hr1⟩ := List.mem_map.1 hr
      by_cases h1 : pred r1 = true
      · rw [if_pos h1] at hr1
        subst hr1
        rfl
      · simp only [Bool.not_eq_true] at h1
        rw [if_neg (by simp [h1])] at hr1
        subst hr1
        rw [h1] at hp
        exact absurd hp (by simp)
    rw [find?_filter_keep _ pred keep hfk, hmap, hfind]
    simp [decode_encode v]
  | none =>
    simp only [hfind]
    unfold contextGet purgeExpired
    simp only
    have hnone : ∀ r ∈ db.context, ¬(pred r = true) := by
      intro r hr
      exact List.find?_eq_none.1 hfind r hr
    set newRow : ContextRow :=
      { id := db.nextContextId, session_id := s, key := k,
        value := encode v, skill_name := nonEmpty sn,
        expires_at := none, created_at := sqliteNow t1 } with hnew
    have hfilter : (db.context ++ [newRow]).filter
        (fun r => match r.expires_at with
          | some e => !(listLtB e (sqliteNow t2))
          | none => true) =
        db.context.filter
          (fun r => match r.expires_at with
            | some e => !(listLtB e (sqliteNow t2))
            | none => true) ++ [newRow] := by
      rw [List.filter_append]
      simp [hnew]
    rw [hfilter, List.find?_append]
    have hleft : (db.context.filter
        (fun r => match r.expires_at with
          | some e => !(listLtB e (sqliteNow t2))
          | none => true)).find? pred = none := by
      rw [List.find?_eq_none]
      intro r hr
      exact hnone r (List.mem_of_mem_filter hr)
    rw [hleft]
    simp [hnew, pred, decode_encode v]

/-- The payload of the C3 scenario. -/
def c3Value : Json := Json.obj [(['a'], Json.num 1)]

/-- The C3 scenario: at 2025-10-12 12:00:00 UTC (epoch ms 1760270400000),
store a context entry whose TTL of -1 minutes makes it expired the moment it
is written. -/
def c3Db : Db :=
  (contextSet 1760270400000 emptyDb
    { session_id := "s", key := "k", value := c3Value, skill_name := none,
      expires_in_minutes := some (-1) }).1

/-- C3, code bug: the stored expiry string "2025-10-12T11:59:00.000Z" is one
minute in the past, yet a contextGet at the very same clock instant still
returns the value and contextList still lists the key: the purge compares
that ISO-format string against CURRENT_TIMESTAMP's "2025-10-12 12:00:00"
with SQLite's binary TEXT ordering, and since 'T' sorts above ' ', an entry
whose expiry date equals the current UTC date is never deleted — and the
SELECT itself never re-checks expires_at. -/
theorem C3_expired_entry_served :
    ((contextGet 1760270400000 c3Db "s" "k").2 =
      some (CtxValue.parsed c3Value)) ∧
    ((contextList 1760270400000 c3Db "s").2.map (fun r => r.key) = ["k"]) ∧
    (c3Db.context.map (fun r => r.expires_at) =
      [some (isoChars (utcOf (1760270400000 - 60000)))]) ∧
    ((1760270400000 - 60000 : Int) < 1760270400000) :=
  ⟨rfl, rfl, by decide, by decide⟩

/-- C10: a TTL argument of 0 is falsy in JavaScript, so contextSet stores it
exactly as it stores an omitted TTL — a NULL expires_at — and rows with a
NULL expires_at survive every purge, so such an entry never expires. -/
theorem C10_zero_ttl :
    (∀ (now : Nat) (db : Db) (s k : String) (v : Json) (sn : Option String),
      contextSet now db
        { session_id := s, key := k, value := v, skill_name := sn,
          expires_in_minutes := some 0 } =
      contextSet now db
        { session_id := s, key := k, value := v, skill_name := sn,
          expires_in_minutes := none }) ∧
    (∀ (t : Nat) (l : List ContextRow) (r : ContextRow),
      r ∈ l → r.expires_at = none → r ∈ purgeExpired t l) := by
  constructor
  · intro now db s k v sn
    simp [contextSet]
  · intro t l r hr he
    unfold purgeExpired
    rw [List.mem_filter]
    refine ⟨hr, ?_⟩
    rw [he]

/-- A live (no-expiry) row used to instantiate C10. -/
def c10Row : ContextRow :=
  { id := 1, session_id := "s", key := "k", value := ['1'],
    skill_name := none, expires_at := none, created_at := sqliteNow 0 }

theorem C10_zero_ttl_witness :
    (contextSet 0 emptyDb
      { session_id := "s", key := "k", value := Json.null,
        skill_name := none, expires_in_minutes := some 0 } =
     contextSet 0 emptyDb
      { session_id := "s", key := "k", value := Json.null,
        skill_name := none, expires_in_minutes := none }) ∧
    c10Row ∈ purgeExpired 1999999999999 [c10Row] :=
  ⟨C10_zero_ttl.1 0 emptyDb "s" "k" Json.null none,
   C10_zero_ttl.2 1999999999999 [c10Row] c10Row (by simp) rfl⟩

/-- C9: with PRAGMA foreign_keys = ON and skill_usage.skill_name referencing
skills(name), skillUsageStart on an unregistered skill name fails with a
constraint error, inserts no usage row and touches no skill's last_used_at:
the returned state is the input state unchanged. -/
theorem C9_usage_start_fk :
    ∀ (now : Nat) (db : Db) (p : SkillUsageStartParams),
    (∀ s ∈ db.skills, s.name ≠ p.skill_name) →
    skillUsageStart now db p =
      (db, Except.error (DbError.constraint ("FOREIGN KEY constraint failed"))) := by
  intro now db p h
  unfold skillUsageStart
  rw [if_neg]
  intro hc
  rw [List.any_eq_true] at hc
  obtain ⟨s, hs, he⟩ := hc
  exact h s hs (by simpa using he)

theorem C9_usage_start_fk_witness :
    skillUsageStart 0 emptyDb { skill_name := "ghost", project_path := none } =
      (emptyDb, Except.error (DbError.constraint ("FOREIGN KEY constraint failed"))) :=
  C9_usage_start_fk 0 emptyDb
    { skill_name := "ghost", project_path := none } (by simp [emptyDb])

/-- Whether a search outcome is the specification taxonomy's caller-input
validation failure, as opposed to a storage-level failure. -/
def isValidationErr : Except DbError (List MemoryRow) → Bool
  | Except.error (DbError.validation _) => true
  | _ => false

/-- C7, counterexample to the claim as stated: an empty search query does
not produce a ValidationError — the code performs no input validation at
all, and the error that surfaces is the storage-level fts5 syntax error the
search engine throws. -/
theorem C7_counterexample :
    (memorySearch emptyDb { query := "", scope := none, limit := none }).2 =
      Except.error (DbError.storage ("fts5: syntax error near the empty query")) ∧
    isValidationErr
      (memorySearch emptyDb { query := "", scope := none, limit := none }).2 =
      false :=
  ⟨rfl, rfl⟩

/-- C7, amended: for every database state, memorySearch with an empty query
fails with the storage-level fts5 syntax error (never a ValidationError,
which nothing in the code ever constructs). -/
theorem C7_amended :
    ∀ (db : Db) (sc : Option String) (lim : Option Nat),
    (memorySearch db { query := "", scope := sc, limit := lim }).2 =
      Except.error (DbError.storage ("fts5: syntax error near the empty query")) ∧
    isValidationErr
      (memorySearch db { query := "", scope := sc, limit := lim }).2 = false := by
  intro db sc lim
  constructor
  · simp [memorySearch, ftsMatchMemory]
  · simp [memorySearch, ftsMatchMemory, isValidationErr]

/-- The merged row the failureRecord update branch produces. -/
def bumpFailure (now : Nat) (p : FailureRecordParams) (r : FailureRow) :
    FailureRow :=
  { r with occurrence_count := r.occurrence_count + 1,
           last_seen_at := sqliteNow now,
           solution := ((nonEmpty p.solution).orElse (fun _ => r.solution)),
           error_message := ((nonEmpty p.error_message).orElse
             (fun _ => r.error_message)) }

/-- C4: failureRecord deduplicates on error_pattern. When a row with the
pattern exists, no row is added, that row's occurrence_count rises by one,
last_seen_at is refreshed, and solution/error_message are replaced only by
non-empty supplied values — an omitted or empty argument leaves the stored
value untouched. When no row matches, a fresh row with occurrence_count 1 is
appended. -/
theorem C4_failure_dedup :
    ∀ (now : Nat) (db : Db) (p : FailureRecordParams),
    (∀ ex, db.failures.find? (fun r => r.error_pattern == p.error_pattern) =
        some ex →
      (failureRecord now db p).1.failures.length = db.failures.length ∧
      ∃ r' ∈ (failureRecord now db p).1.failures,
        r'.id = ex.id ∧
        r'.error_pattern = ex.error_pattern ∧
        r'.occurrence_count = ex.occurrence_count + 1 ∧
        r'.last_seen_at = sqliteNow now ∧
        ((p.solution = none ∨ p.solution = some "") →
          r'.solution = ex.solution) ∧
        (∀ sol, p.solution = some sol → sol ≠ "" → r'.solution = some sol) ∧
        ((p.error_message = none ∨ p.error_message = some "") →
          r'.error_message = ex.error_message) ∧
        (∀ msg, p.error_message = some msg → msg ≠ "" →
          r'.error_message = some msg)) ∧
    (db.failures.find? (fun r => r.error_pattern == p.error_pattern) = none →
      (failureRecord now db p).1.failures =
        db.failures ++
          [{ id := db.nextFailureId, error_pattern := p.error_pattern,
             error_message := nonEmpty p.error_message,
             solution := nonEmpty p.solution,
             skill_name := nonEmpty p.skill_name,
             project_path := nonEmpty p.project_path,
             occurrence_count := 1, last_seen_at := sqliteNow now,
             created_at := sqliteNow now }]) := by
  intro now db p
  constructor
  · intro ex hfind
    unfold failureRecord
    rw [hfind]
    simp only
    constructor
    · simp
    · have hex : ex ∈ db.failures := List.mem_of_find?_eq_some hfind
      refine ⟨bumpFailure now p ex, ?_, rfl, rfl, rfl, rfl, ?_, ?_, ?_, ?_⟩
      · have := List.mem_map_of_mem
          (fun r : FailureRow =>
            if r.id == ex.id then bumpFailure now p r else r) hex
        simpa [bumpFailure] using this
      · intro hsol
        rcases hsol with h | h <;>
          simp [h, nonEmpty, Option.orElse, bumpFailure]
      · intro sol hsol hne
        simp [hsol, nonEmpty, hne, Option.orElse, bumpFailure]
      · intro hmsg
        rcases hmsg with h | h <;>
          simp [h, nonEmpty, Option.orElse, bumpFailure]
      · intro msg hmsg hne
        simp [hmsg, nonEmpty, hne, Option.orElse, bumpFailure]
  · intro hfind
    unfold failureRecord
    rw [hfind]

/-- The database after the first C4 record call: one failure row holding the
supplied solution. -/
def c4Db1 : Db :=
  (failureRecord 0 emptyDb
    { error_pattern := "TypeError: x", error_message := none,
      solution := some ("fix1"), skill_name := none,
      project_path := none }).1

/-- The failure row that first call creates. -/
def c4Row : FailureRow :=
  { id := 1, error_pattern := "TypeError: x", error_message := none,
    solution := some ("fix1"), skill_name := none, project_path := none,
    occurrence_count := 1, last_seen_at := sqliteNow 0,
    created_at := sqliteNow 0 }

theorem C4_failure_dedup_witness :
    (∃ r' ∈ (failureRecord 5000 c4Db1
        { error_pattern := "TypeError: x", error_message := none,
          solution := none, skill_name := none,
          project_path := none }).1.failures,
      r'.occurrence_count = 2 ∧ r'.solution = some ("fix1")) ∧
    (failureRecord 0 emptyDb
        { error_pattern := "TypeError: x", error_message := none,
          solution := some ("fix1"), skill_name := none,
          project_path := none }).1.failures.length = 1 := by
  constructor
  · obtain ⟨-, r', hmem, -, -, hcount, -, hsol, -, -, -⟩ :=
      (C4_failure_dedup 5000 c4Db1
        { error_pattern := "TypeError: x", error_message := none,
          solution := none, skill_name := none, project_path := none }).1
        c4Row (by rfl)
    refine ⟨r', hmem, ?_, ?_⟩
    · rw [hcount]
      rfl
    · exact hsol (Or.inl rfl)
  · rw [(C4_failure_dedup 0 emptyDb
      { error_pattern := "TypeError: x", error_message := none,
        solution := some ("fix1"), skill_name := none,
        project_path := none }).2 (by rfl)]
    rfl

/-- C5: memoryWrite keeps keys unique — a state whose keys are distinct
still has distinct keys after any write, and the written key then occupies
exactly one row. Writing to an existing key rewrites content, tags, scope
and source, stamps updated_at with the write's clock, and leaves created_at
exactly what the original row carried. -/
theorem C5_memory_upsert :
    ∀ (now : Nat) (db : Db) (p : MemoryWriteParams),
    (db.memory.map (fun r => r.key)).Nodup →
    ((memoryWrite now db p).1.memory.countP (fun r => r.key == p.key) = 1) ∧
    ((memoryWrite now db p).1.memory.map (fun r => r.key)).Nodup ∧
    (∀ r0, db.memory.find? (fun r => r.key == p.key) = some r0 →
      ∃ r' ∈ (memoryWrite now db p).1.memory,
        r'.key = p.key ∧
        r'.content = p.content ∧
        r'.scope = p.scope.getD ("global") ∧
        r'.source = some (p.source.getD ("manual")) ∧
        r'.tags = p.tags.map (fun ts =>
          encode (Json.arr (ts.map (fun t => Json.str t.data)))) ∧
        r'.updated_at = sqliteNow now ∧
        r'.created_at = r0.created_at) := by
  intro now db p hnd
  unfold memoryWrite
  cases hfind : db.memory.find? (fun r => r.key == p.key) with
  | some r0 =>
    simp only
    have hkeys : (db.memory.map (fun r =>
        if r.key == p.key then rewriteMemory now p r else r)).map
          (fun r => r.key) =
        db.memory.map (fun r => r.key) := by
      rw [List.map_map]
      apply List.map_congr_left
      intro r _
      by_cases h : r.key = p.key
      · simp [h, rewriteMemory]
      · simp [h]
    have hr0mem : r0 ∈ db.memory := List.mem_of_find?_eq_some hfind
    have hr0key : (r0.key == p.key) = true := by
      have h1 := List.find?_some hfind
      exact h1
    refine ⟨?_, ?_, ?_⟩
    · have hstep : (db.memory.map (fun r =>
          if r.key == p.key then rewriteMemory now p r else r)).countP
            (fun r => r.key == p.key) =
          ((db.memory.map (fun r =>
            if r.key == p.key then rewriteMemory now p r else r)).map
              (fun r => r.key)).countP (fun k => k == p.key) := by
        rw [List.countP_map, List.map_map, List.countP_map]
        rfl
      rw [hstep, hkeys]
      have hkmem : p.key ∈ db.memory.map (fun r => r.key) := by
        rw [List.mem_map]
        exact ⟨r0, hr0mem, by simpa using hr0key⟩
      have := List.count_eq_one_of_mem hnd hkmem
      simpa [List.count] using this
    · rw [hkeys]
      exact hnd
    · intro r1 hf1
      obtain rfl : r0 = r1 := by injection hf1
      refine ⟨rewriteMemory now p r0, ?_, by simpa using hr0key, rfl, rfl,
        rfl, rfl, rfl, rfl⟩
      have := List.mem_map_of_mem
        (fun r : MemoryRow =>
          if r.key == p.key then rewriteMemory now p r else r) hr0mem
      simpa [hr0key] using this
  | none =>
    simp only
    have hnomem : ∀ r ∈ db.memory, ¬((r.key == p.key) = true) :=
      List.find?_eq_none.1 hfind
    have hknotin : p.key ∉ db.memory.map (fun r => r.key) := by
      rw [List.mem_map]
      rintro ⟨r, hr, hk⟩
      exact hnomem r hr (by simp [hk])
    refine ⟨?_, ?_, ?_⟩
    · rw [List.countP_append]
      have hzero : db.memory.countP (fun r => r.key == p.key) = 0 := by
        rw [List.countP_eq_zero]
        exact hnomem
      rw [hzero]
      simp
    · rw [List.map_append]
      simp only [List.map_cons, List.map_nil]
      rw [List.nodup_append]
      refine ⟨hnd, by simp, ?_⟩
      intro a ha hb
      simp only [List.mem_singleton] at hb
      subst hb
      exact hknotin ha
    · intro r0 hf0
      exact absurd hf0 (by simp)

/-- The database after the first C5 write. -/
def c5Db1 : Db :=
  (memoryWrite 1000 emptyDb
    { key := "k", content := "one", tags := none, scope := none,
      source := none }).1

theorem C5_memory_upsert_witness :
    ((memoryWrite 5000 c5Db1
      { key := "k", content := "two", tags := none,
        scope := some ("project:x"), source := some ("evolve") }).1.memory.countP
          (fun r => r.key == "k") = 1) ∧
    (∃ r' ∈ (memoryWrite 5000 c5Db1
        { key := "k", content := "two", tags := none,
          scope := some ("project:x"), source := some ("evolve") }).1.memory,
      r'.content = "two" ∧ r'.created_at = sqliteNow 1000 ∧
        r'.updated_at = sqliteNow 5000) := by
  have happ := C5_memory_upsert 5000 c5Db1
    { key := "k", content := "two", tags := none,
      scope := some ("project:x"), source := some ("evolve") } (by decide)
  refine ⟨happ.1, ?_⟩
  obtain ⟨r', hmem, -, hcontent, -, -, -, hupd, hcreated⟩ :=
    happ.2.2 { id := 1, key := "k", content := "one", tags := none,
               scope := "global", source := some ("manual"),
               created_at := sqliteNow 1000, updated_at := sqliteNow 1000 }
      (by rfl)
  exact ⟨r', hmem, hcontent, hcreated, hupd⟩

/-- The C1 scenario skill registry: one registered skill named s. -/
def c1Db0 : Db :=
  (skillRegister 1760270400000 emptyDb
    { name := "s", version := "1.0.0", source := "plugin",
      project_path := none, installed_by := none }).1

/-- The state after skillUsageStart: one open usage row with id 1 and the
skill's use_count still 0. -/
def c1Db1 : Db :=
  (skillUsageStart 1760270400000 c1Db0
    { skill_name := "s", project_path := none }).1

/-- The parameters of both skillUsageEnd calls in the C1 scenario. -/
def c1EndParams : SkillUsageEndParams :=
  { usage_id := 1, success := true, outcome := none, tokens_used := none,
    notes := none }

/-- The state after the first skillUsageEnd. -/
def c1Db2 : Db := (skillUsageEnd 1760270400000 c1Db1 c1EndParams).1

/-- The state after calling skillUsageEnd a second time on the same id. -/
def c1Db3 : Db := (skillUsageEnd 1760270400000 c1Db2 c1EndParams).1

/-- C1, counterexample to the claim as stated: after start and one end the
counter is 1, but a second end on the same usage id — whose row still
exists — increments again, leaving use_count 2 while the claim requires the
repeat call to leave the counter untouched. -/
theorem C1_counterexample :
    (skillUsageStart 1760270400000 c1Db0
      { skill_name := "s", project_path := none }).2 = Except.ok 1 ∧
    c1Db2.skills.map (fun s => s.use_count) = [1] ∧
    (skillUsageEnd 1760270400000 c1Db2 c1EndParams).2 = true ∧
    c1Db3.skills.map (fun s => s.use_count) = [2] :=
  ⟨rfl, rfl, rfl, rfl⟩

/-- C1, amended: every skillUsageEnd call whose usage id resolves to a row
increments the referenced skill's use_count by one — so a repeated call on
the same id increments again — while a call whose id matches no row leaves
the whole skills table untouched; the call reports success in both cases. -/
theorem C1_amended :
    ∀ (now : Nat) (db : Db) (p : SkillUsageEndParams),
    (∀ u, db.skill_usage.find? (fun r => r.id == p.usage_id) = some u →
      (skillUsageEnd now db p).2 = true ∧
      ∀ s ∈ db.skills, ∃ s2 ∈ (skillUsageEnd now db p).1.skills,
        s2.name = s.name ∧
        s2.use_count =
          (if s.name = u.skill_name then s.use_count + 1 else s.use_count)) ∧
    (db.skill_usage.find? (fun r => r.id == p.usage_id) = none →
      (skillUsageEnd now db p).2 = true ∧
      (skillUsageEnd now db p).1.skills = db.skills) := by
  intro now db p
  have hmap := find?_map_ite db.skill_usage (fun r => r.id == p.usage_id)
    (completeUsage now p) (fun r => rfl)
  constructor
  · intro u hfind
    simp only [skillUsageEnd]
    rw [hmap, hfind]
    refine ⟨rfl, ?_⟩
    intro s hs
    refine ⟨if s.name == u.skill_name then
        { s with use_count := s.use_count + 1 } else s, ?_, ?_, ?_⟩
    · have := List.mem_map_of_mem (fun s : SkillRow =>
        if s.name == (completeUsage now p u).skill_name then
          { s with use_count := s.use_count + 1 } else s) hs
      exact this
    · by_cases h : s.name = u.skill_name <;> simp [h]
    · by_cases h : s.name = u.skill_name <;> simp [h]
  · intro hfind
    simp only [skillUsageEnd]
    rw [hmap, hfind]
    exact ⟨rfl, rfl⟩

/-- The usage row skillUsageStart creates in the C1 scenario. -/
def c1UsageRow : UsageRow :=
  { id := 1, skill_name := "s", project_path := none,
    started_at := some (sqliteNow 1760270400000), completed_at := none,
    success := none, outcome := none, tokens_used := none, notes := none }

theorem C1_amended_witness :
    ((skillUsageEnd 1760270400000 c1Db1 c1EndParams).2 = true ∧
      ∀ s ∈ c1Db1.skills,
        ∃ s2 ∈ (skillUsageEnd 1760270400000 c1Db1 c1EndParams).1.skills,
          s2.name = s.name ∧
          s2.use_count = (if s.name = c1UsageRow.skill_name then
            s.use_count + 1 else s.use_count)) ∧
    ((skillUsageEnd 0 emptyDb c1EndParams).2 = true ∧
      (skillUsageEnd 0 emptyDb c1EndParams).1.skills = emptyDb.skills) :=
  ⟨(C1_amended 1760270400000 c1Db1 c1EndParams).1 c1UsageRow (by rfl),
   (C1_amended 0 emptyDb c1EndParams).2 (by rfl)⟩

/-- The C2 scenario skill. -/
def c2Skill : SkillRow :=
  { id := 1, name := "s", version := "1", source := "src",
    project_path := none, installed_by := none, installed_at := sqliteNow 0,
    last_used_at := none, use_count := 0 }

/-- A completed, successful usage whose project path matches "web". -/
def c2Usage1 : UsageRow :=
  { id := 1, skill_name := "s", project_path := some ("/x/web"),
    started_at := some (sqliteNow 0), completed_at := some (sqliteNow 0),
    success := some true, outcome := none, tokens_used := none, notes := none }

/-- A started but never completed usage: success is still NULL. -/
def c2Usage2 : UsageRow :=
  { id := 2, skill_name := "s", project_path := none,
    started_at := some (sqliteNow 0), completed_at := none, success := none,
    outcome := none, tokens_used := none, notes := none }

/-- The C2 scenario database: one skill, one successful completed usage and
one in-progress usage. -/
def c2Db : Db :=
  { emptyDb with skills := [c2Skill], skill_usage := [c2Usage1, c2Usage2],
                 nextSkillId := 2, nextUsageId := 3 }

/-- C2, counterexample to the claim as stated: with one completed successful
usage and one uncompleted usage the claim asks for success_rate 1 (the mean
over completed usages only), but the query averages over both rows — the
NULL success falls into the CASE's ELSE 0.0 — and reports 1/2. And under a
project_type filter, usage_count counts only the matching usages (1), not
all of the skill's usages (2). -/
theorem C2_counterexample :
    ((skillRecommend c2Db { project_type := none, limit := none }).map
      (fun r => (r.success_rate, r.usage_count)) = [((1 : Rat) / 2, 2)]) ∧
    ((1 : Rat) / 2 ≠ 1) ∧
    ((skillRecommend c2Db { project_type := some ("web"), limit := none }).map
      (fun r => (r.success_rate, r.usage_count)) = [(1, 1)]) ∧
    c2Db.skill_usage.length = 2 := by
  have h1 : (skillRecommend c2Db { project_type := none, limit := none }).map
      (fun r => (r.success_rate, r.usage_count)) =
      [(avgScore [c2Usage1, c2Usage2], 2)] := rfl
  have h2 : avgScore [c2Usage1, c2Usage2] = (1 : Rat) / 2 := by
    have hu1 : usageScore c2Usage1 = 1 := rfl
    have hu2 : usageScore c2Usage2 = 0 := rfl
    unfold avgScore
    rw [show List.map usageScore [c2Usage1, c2Usage2] =
      [usageScore c2Usage1, usageScore c2Usage2] from rfl, hu1, hu2]
    norm_num
  have h3 : (skillRecommend c2Db
      { project_type := some ("web"), limit := none }).map
      (fun r => (r.success_rate, r.usage_count)) =
      [(avgScore [c2Usage1], 1)] := rfl
  have h4 : avgScore [c2Usage1] = 1 := by
    have hu1 : usageScore c2Usage1 = 1 := rfl
    unfold avgScore
    rw [show List.map usageScore [c2Usage1] = [usageScore c2Usage1] from rfl,
      hu1]
    norm_num
  refine ⟨?_, by norm_num, ?_, rfl⟩
  · rw [h1, h2]
  · rw [h3, h4]

/-- The usage rows a recommendation query aggregates for one skill: all of
the skill's usages, or only the project-matching ones when a project_type
filter is supplied. -/
def consideredUsages (db : Db) (p : SkillRecommendParams) (name : String) :
    List UsageRow :=
  match p.project_type with
  | some t => (usagesFor db name).filter (fun u => likeContains t u.project_path)
  | none => usagesFor db name

/-- C2, amended: for every row skillRecommend returns, usage_count is the
number of usages the query considered for that skill (all of them without a
filter, only the project-matching ones with one), and success_rate is the
mean of "success is true" over those same usages — uncompleted usages count
as failures — with 0 when no usage was considered. -/
theorem C2_amended :
    ∀ (db : Db) (p : SkillRecommendParams) (r : RecRow),
    r ∈ skillRecommend db p →
    r.usage_count = (consideredUsages db p r.skill.name).length ∧
    r.success_rate =
      (if (consideredUsages db p r.skill.name).length = 0 then 0
       else ((consideredUsages db p r.skill.name).countP
          (fun u => u.success == some true) : Rat) /
        ((consideredUsages db p r.skill.name).length : Rat)) := by
  intro db p r hr
  cases hp : p.project_type with
  | some t =>
    have hform : skillRecommend db p =
        (sortRec (db.skills.filterMap (fun s =>
          let us := (usagesFor db s.name).filter
            (fun u => likeContains t u.project_path)
          if us.isEmpty then none
          else some { skill := s, success_rate := avgScore us,
                      usage_count := us.length }))).take (p.limit.getD 5) := by
      simp [skillRecommend, hp]
    rw [hform] at hr
    have hr2 := mem_sortRec r _ (List.mem_of_mem_take hr)
    obtain ⟨s, hs, heq⟩ := List.mem_filterMap.1 hr2
    simp only at heq
    by_cases he :
        ((usagesFor db s.name).filter
          (fun u => likeContains t u.project_path)).isEmpty
    · rw [if_pos he] at heq
      exact absurd heq (by simp)
    · rw [if_neg he] at heq
      have hlen :
          ((usagesFor db s.name).filter
            (fun u => likeContains t u.project_path)).length ≠ 0 := by
        intro h0
        rw [List.isEmpty_iff] at he
        exact he (List.length_eq_zero.1 h0)
      obtain rfl := Option.some.inj heq
      have hcons : consideredUsages db p
          ({ skill := s, success_rate := avgScore ((usagesFor db s.name).filter
              (fun u => likeContains t u.project_path)),
             usage_count := ((usagesFor db s.name).filter
              (fun u => likeContains t u.project_path)).length } :
            RecRow).skill.name =
          (usagesFor db s.name).filter (fun u => likeContains t u.project_path) := by
        simp [consideredUsages, hp]
      rw [hcons]
      refine ⟨rfl, ?_⟩
      rw [if_neg hlen]
      unfold avgScore
      rw [sum_usageScore]
  | none =>
    have hform : skillRecommend db p =
        (sortRec (db.skills.map (fun s =>
          let us := usagesFor db s.name
          if us.isEmpty then
            { skill := s, success_rate := 0, usage_count := 0 }
          else { skill := s, success_rate := avgScore us,
                 usage_count := us.length }))).take (p.limit.getD 5) := by
      simp [skillRecommend, hp]
    rw [hform] at hr
    have hr2 := mem_sortRec r _ (List.mem_of_mem_take hr)
    obtain ⟨s, hs, heq⟩ := List.mem_map.1 hr2
    simp only at heq
    have hcons2 : consideredUsages db p s.name = usagesFor db s.name := by
      simp [consideredUsages, hp]
    by_cases he : (usagesFor db s.name).isEmpty
    · rw [if_pos he] at heq
      subst heq
      have hlen : (usagesFor db s.name).length = 0 := by
        rw [List.isEmpty_iff] at he
        rw [he]
        rfl
      simp only
      rw [hcons2, hlen]
      exact ⟨rfl, by rw [if_pos rfl]⟩
    · rw [if_neg he] at heq
      have hlen : (usagesFor db s.name).length ≠ 0 := by
        intro h0
        rw [List.isEmpty_iff] at he
        exact he (List.length_eq_zero.1 h0)
      subst heq
      simp only
      rw [hcons2]
      refine ⟨rfl, ?_⟩
      rw [if_neg hlen]
      unfold avgScore
      rw [sum_usageScore]

/-- The recommendation row the C2 database produces without a filter. -/
def c2Rec : RecRow :=
  { skill := c2Skill, success_rate := avgScore [c2Usage1, c2Usage2],
    usage_count := 2 }

theorem C2_amended_witness :
    c2Rec.usage_count =
      (consideredUsages c2Db { project_type := none, limit := none }
        c2Rec.skill.name).length ∧
    c2Rec.success_rate =
      (if (consideredUsages c2Db { project_type := none, limit := none }
          c2Rec.skill.name).length = 0 then 0
       else ((consideredUsages c2Db { project_type := none, limit := none }
          c2Rec.skill.name).countP (fun u => u.success == some true) : Rat) /
        ((consideredUsages c2Db { project_type := none, limit := none }
          c2Rec.skill.name).length : Rat)) :=
  C2_amended c2Db { project_type := none, limit := none } c2Rec
    (by rw [show skillRecommend c2Db { project_type := none, limit := none } =
        [c2Rec] from rfl]
        exact List.mem_cons_self c2Rec [])

/-- The C6 scenario skill, registered but never used. -/
def c6Skill : SkillRow :=
  { id := 1, name := "t", version := "1", source := "src",
    project_path := none, installed_by := none, installed_at := sqliteNow 0,
    last_used_at := none, use_count := 0 }

/-- The C6 scenario database: one skill and an empty skill_usage table. -/
def c6Db : Db := { emptyDb with skills := [c6Skill], nextSkillId := 2 }

/-- C6, counterexample to the claim as stated: without a project_type filter
there is no HAVING clause, so a skill with no usage rows at all is still
returned — with success_rate 0 and usage_count 0 — contradicting "a skill
with no usage records is never recommended, with or without the filter". -/
theorem C6_counterexample :
    ((skillRecommend c6Db { project_type := none, limit := none }).map
      (fun r => (r.skill.name, r.success_rate, r.usage_count)) =
      [("t", 0, 0)]) ∧
    c6Db.skill_usage.length = 0 :=
  ⟨rfl, rfl⟩

/-- C6, amended: the exclusion the claim describes does hold when a
project_type is supplied — every returned skill then has at least one usage
whose project_path LIKE-matches the filter, so an unused skill can never
appear in a filtered recommendation; without the filter, unused skills are
included, with zero usage_count and zero success_rate. -/
theorem C6_amended :
    ∀ (db : Db) (t : String) (lim : Option Nat) (r : RecRow),
    r ∈ skillRecommend db { project_type := some t, limit := lim } →
    ∃ u ∈ db.skill_usage, u.skill_name = r.skill.name ∧
      likeContains t u.project_path = true := by
  intro db t lim r hr
  have hform : skillRecommend db { project_type := some t, limit := lim } =
      (sortRec (db.skills.filterMap (fun s =>
        let us := (usagesFor db s.name).filter
          (fun u => likeContains t u.project_path)
        if us.isEmpty then none
        else some { skill := s, success_rate := avgScore us,
                    usage_count := us.length }))).take (lim.getD 5) := by
    simp [skillRecommend]
  rw [hform] at hr
  have hr2 := mem_sortRec r _ (List.mem_of_mem_take hr)
  obtain ⟨s, hs, heq⟩ := List.mem_filterMap.1 hr2
  simp only at heq
  by_cases he :
      ((usagesFor db s.name).filter
        (fun u => likeContains t u.project_path)).isEmpty
  · rw [if_pos he] at heq
    exact absurd heq (by simp)
  · rw [if_neg he] at heq
    obtain rfl := Option.some.inj heq
    cases hl : (usagesFor db s.name).filter
        (fun u => likeContains t u.project_path) with
    | nil =>
      rw [List.isEmpty_iff] at he
      exact absurd hl he
    | cons u us =>
      have hu : u ∈ (usagesFor db s.name).filter
          (fun u => likeContains t u.project_path) := by
        rw [hl]
        exact List.mem_cons_self u us
      obtain ⟨humem, hulike⟩ := List.mem_filter.1 hu
      obtain ⟨husage, huname⟩ := List.mem_filter.1 humem
      exact ⟨u, husage, by simpa using huname, hulike⟩

/-- A usage of the C6 skill whose path matches the filter only up to ASCII
case. -/
def c6Usage : UsageRow :=
  { id := 1, skill_name := "t", project_path := some ("/a/Web/b"),
    started_at := none, completed_at := none, success := none,
    outcome := none, tokens_used := none, notes := none }

/-- A C6 database in which the filter does match one usage. -/
def c6FDb : Db :=
  { emptyDb with skills := [c6Skill], skill_usage := [c6Usage],
                 nextSkillId := 2, nextUsageId := 2 }

/-- The recommendation row c6FDb produces under the "web" filter. -/
def c6Rec : RecRow :=
  { skill := c6Skill, success_rate := avgScore [c6Usage], usage_count := 1 }

theorem C6_amended_witness :
    ∃ u ∈ c6FDb.skill_usage, u.skill_name = c6Rec.skill.name ∧
      likeContains "web" u.project_path = true :=
  C6_amended c6FDb "web" none c6Rec
    (by rw [show skillRecommend c6FDb
          { project_type := some ("web"), limit := none } = [c6Rec] from rfl]
        exact List.mem_cons_self c6Rec [])

end CMem
